import Mathlib

/-!
Verification of the terrain-height query subsystem of the
`proj-medevil-village` repository: the ITRI triangle codec
(`decodeTriangle`, `parseITRI`), the XZ quadtree spatial index
(`subdivideOctree`, `buildTerrainOctree`, `queryOctree`) and the height
query services (`getTerrainHeightFromOctree`, `findTerrainHeight`) from
`terrainUtils.ts` and `InstancedTriangles.tsx`.

The JavaScript number type is modelled by `ℚ` (exact arithmetic standing
in for IEEE doubles); typed arrays by lists; JS array reads by `getD`
with default `0` (claims are stated with in-range indices, where this
coincides with the source).
-/

namespace Terrain

/-- three.js `Vector3`, components modelled as rationals. -/
structure Vec3 where
  x : ℚ
  y : ℚ
  z : ℚ
deriving DecidableEq, Repr

/-- `new Vector3().subVectors(a, b)`. -/
def subVectors (a b : Vec3) : Vec3 := ⟨a.x - b.x, a.y - b.y, a.z - b.z⟩

/-- `a.add(b)` (on a fresh clone, as the source uses it). -/
def addVec (a b : Vec3) : Vec3 := ⟨a.x + b.x, a.y + b.y, a.z + b.z⟩

/-- `new Vector3().crossVectors(a, b)`. -/
def crossVectors (a b : Vec3) : Vec3 :=
  ⟨a.y * b.z - a.z * b.y, a.z * b.x - a.x * b.z, a.x * b.y - a.y * b.x⟩

/-- `a.dot(b)`. -/
def dotVec (a b : Vec3) : ℚ := a.x * b.x + a.y * b.y + a.z * b.z

/-- The `EPSILON = 0.0000001` of `rayTriangleIntersect`. -/
def EPSILON : ℚ := 1 / 10000000

/-- `rayTriangleIntersect` from `terrainUtils.ts` (Möller–Trumbore):
returns `some t` on a hit, `none` where the source returns `null`. -/
def rayTriangleIntersect (rayOrigin rayDir v0 v1 v2 : Vec3) : Option ℚ :=
  let edge1 := subVectors v1 v0
  let edge2 := subVectors v2 v0
  let h := crossVectors rayDir edge2
  let a := dotVec edge1 h
  if -EPSILON < a ∧ a < EPSILON then none
  else
    let f := 1 / a
    let s := subVectors rayOrigin v0
    let u := f * dotVec s h
    if u < 0 ∨ u > 1 then none
    else
      let q := crossVectors s edge1
      let v := f * dotVec rayDir q
      if v < 0 ∨ u + v > 1 then none
      else
        let t := f * dotVec edge2 q
        if t > EPSILON then some t else none

/-- Dequantization of one u16 base-vertex component:
`bmin + (raw/65535) * (bmax - bmin)`. -/
def dequantBase (bmin bmax : ℚ) (raw : ℤ) : ℚ :=
  bmin + ((raw : ℚ) / 65535) * (bmax - bmin)

/-- Dequantization of one i16 edge-vector component: `(raw/32767) * vecRange`. -/
def dequantEdge (vecRange : ℚ) (raw : ℤ) : ℚ :=
  ((raw : ℚ) / 32767) * vecRange

/-- The axis permutation applied after decoding
(`applyRotation`, the −90° rotation about X): `(x,y,z) ↦ (x, z, −y)`. -/
def applyRotation (v : Vec3) : Vec3 := ⟨v.x, v.z, -v.y⟩

/-- `decodeTriangle` from `terrainUtils.ts`: dequantizes base vertex and the
two edge vectors of triangle `idx` and applies the group rotation.
Array entries are read with default `0` for out-of-range indices. -/
def decodeTriangle (idx : ℕ) (v0_u16 x_i16 y_i16 : List ℤ)
    (bmin bmax : Vec3) (vecRange : ℚ) : Vec3 × Vec3 × Vec3 :=
  let i := idx * 3
  let v0 : Vec3 :=
    ⟨dequantBase bmin.x bmax.x (v0_u16.getD (i + 0) 0),
     dequantBase bmin.y bmax.y (v0_u16.getD (i + 1) 0),
     dequantBase bmin.z bmax.z (v0_u16.getD (i + 2) 0)⟩
  let x : Vec3 :=
    ⟨dequantEdge vecRange (x_i16.getD (i + 0) 0),
     dequantEdge vecRange (x_i16.getD (i + 1) 0),
     dequantEdge vecRange (x_i16.getD (i + 2) 0)⟩
  let y : Vec3 :=
    ⟨dequantEdge vecRange (y_i16.getD (i + 0) 0),
     dequantEdge vecRange (y_i16.getD (i + 1) 0),
     dequantEdge vecRange (y_i16.getD (i + 2) 0)⟩
  (applyRotation v0, applyRotation (addVec v0 x), applyRotation (addVec v0 y))

/-- The module-level `terrainData` record of `terrainUtils.ts`. -/
structure TerrainData where
  count : ℕ
  v0_u16 : List ℤ
  x_i16 : List ℤ
  y_i16 : List ℤ
  bmin : Vec3
  bmax : Vec3
  vecRange : ℚ
deriving DecidableEq, Repr

/-- The `bounds` record of an `OctreeNode`. -/
structure Rect where
  minX : ℚ
  maxX : ℚ
  minZ : ℚ
  maxZ : ℚ
deriving DecidableEq, Repr

/-- `OctreeNode`: bounds, triangle index list, and optional four children
(in the child order of `subdivideOctree`). -/
inductive OctreeNode where
  | mk (bounds : Rect) (triangles : List ℕ)
      (children : Option (OctreeNode × OctreeNode × OctreeNode × OctreeNode))

def OctreeNode.bounds : OctreeNode → Rect
  | .mk b _ _ => b

def OctreeNode.triangles : OctreeNode → List ℕ
  | .mk _ t _ => t

def OctreeNode.children :
    OctreeNode → Option (OctreeNode × OctreeNode × OctreeNode × OctreeNode)
  | .mk _ _ c => c

/-- `Math.min` on two ordered values (spelt out so that concrete
evaluations reduce in the kernel). -/
def qmin (a b : ℚ) : ℚ := if a ≤ b then a else b

/-- `Math.max` on two ordered values. -/
def qmax (a b : ℚ) : ℚ := if a ≤ b then b else a

/-- XZ bounding rectangle of decoded triangle `triIdx`
(the `tMinX … tMaxZ` computed inside `subdivideOctree`).
`Math.min(a,b,c)` / `Math.max(a,b,c)` over the three vertices. -/
def triBBox (data : TerrainData) (triIdx : ℕ) : Rect :=
  let t := decodeTriangle triIdx data.v0_u16 data.x_i16 data.y_i16
    data.bmin data.bmax data.vecRange
  ⟨qmin t.1.x (qmin t.2.1.x t.2.2.x), qmax t.1.x (qmax t.2.1.x t.2.2.x),
   qmin t.1.z (qmin t.2.1.z t.2.2.z), qmax t.1.z (qmax t.2.1.z t.2.2.z)⟩

/-- The edge-inclusive overlap test of `subdivideOctree` between a
triangle's XZ bounding box and a child rectangle. -/
def rectOverlap (tri child : Rect) : Prop :=
  tri.maxX ≥ child.minX ∧ tri.minX ≤ child.maxX ∧
  tri.maxZ ≥ child.minZ ∧ tri.minZ ≤ child.maxZ

instance (tri child : Rect) : Decidable (rectOverlap tri child) := by
  unfold rectOverlap; infer_instance

/-- Structural-fuel formulation of the recursion of `subdivideOctree`;
`fuel` is `maxDepth - depth`, which shrinks by one at each recursive
call. The `fuel = 0` case coincides with the `depth ≥ maxDepth` stop
(see `subdivideOctree_eq` for the source-shaped defining equation). -/
def subdivideAux (td : Option TerrainData) : ℕ → OctreeNode → ℕ → ℕ → OctreeNode
  | 0, node, _, _ => node
  | fuel + 1, node, depth, maxDepth =>
    if depth ≥ maxDepth ∨ node.triangles.length < 500 then node
    else
      let b := node.bounds
      let midX := (b.minX + b.maxX) / 2
      let midZ := (b.minZ + b.maxZ) / 2
      let r0 : Rect := ⟨b.minX, midX, b.minZ, midZ⟩
      let r1 : Rect := ⟨midX, b.maxX, b.minZ, midZ⟩
      let r2 : Rect := ⟨b.minX, midX, midZ, b.maxZ⟩
      let r3 : Rect := ⟨midX, b.maxX, midZ, b.maxZ⟩
      match td with
      | none =>
          .mk b node.triangles
            (some (.mk r0 [] none, .mk r1 [] none, .mk r2 [] none, .mk r3 [] none))
      | some data =>
          let fill : Rect → OctreeNode := fun r =>
            .mk r (node.triangles.filter (fun triIdx =>
              decide (rectOverlap (triBBox data triIdx) r))) none
          .mk b []
            (some (subdivideAux td fuel (fill r0) (depth + 1) maxDepth,
                   subdivideAux td fuel (fill r1) (depth + 1) maxDepth,
                   subdivideAux td fuel (fill r2) (depth + 1) maxDepth,
                   subdivideAux td fuel (fill r3) (depth + 1) maxDepth))

/-- `subdivideOctree` from `terrainUtils.ts`. `td` is the module-level
`terrainData` read inside the function (the `if (!terrainData) return`
branch keeps the freshly created empty children and the undistributed
parent list, as the source does). -/
def subdivideOctree (td : Option TerrainData) (node : OctreeNode)
    (depth maxDepth : ℕ) : OctreeNode :=
  subdivideAux td (maxDepth - depth) node depth maxDepth

/-- Point-in-rectangle test used by `queryOctree` (the negation of its
prune condition). -/
def pointInRect (x z : ℚ) (r : Rect) : Prop :=
  r.minX ≤ x ∧ x ≤ r.maxX ∧ r.minZ ≤ z ∧ z ≤ r.maxZ

instance (x z : ℚ) (r : Rect) : Decidable (pointInRect x z r) := by
  unfold pointInRect; infer_instance

/-- The traversal of `queryOctree` on one node. The source's explicit
stack pops children last-pushed-first, so child 3's subtree is emitted
first; the collected index list is reproduced in that order. -/
def queryNode (x z : ℚ) : OctreeNode → List ℕ
  | .mk b tris children =>
      if x < b.minX ∨ x > b.maxX ∨ z < b.minZ ∨ z > b.maxZ then []
      else
        match children with
        | none => tris
        | some (c0, c1, c2, c3) =>
            queryNode x z c3 ++ queryNode x z c2 ++ queryNode x z c1 ++
              queryNode x z c0

/-- The module-level mutable state of `terrainUtils.ts`:
`terrainData`, `octree`, `octreeReady`. -/
structure TerrainState where
  terrainData : Option TerrainData
  octree : Option OctreeNode
  octreeReady : Bool

/-- `queryOctree` from `terrainUtils.ts` (reads the module state). -/
def queryOctree (st : TerrainState) (x z : ℚ) : List ℕ :=
  match st.octree, st.octreeReady with
  | some root, true => queryNode x z root
  | _, _ => []

/-- Indices visited by the root-bounds sampling loop of
`buildTerrainOctree` (`for (let i = 0; i < count; i += 100)`). -/
def sampleIndices (count : ℕ) : List ℕ :=
  (List.range count).filter (fun i => i % 100 = 0)

/-- The x world coordinates of all sampled vertices, in loop order. -/
def sampledXs (data : TerrainData) : List ℚ :=
  (sampleIndices data.count).flatMap (fun i =>
    let t := decodeTriangle i data.v0_u16 data.x_i16 data.y_i16
      data.bmin data.bmax data.vecRange
    [t.1.x, t.2.1.x, t.2.2.x])

/-- The z world coordinates of all sampled vertices, in loop order. -/
def sampledZs (data : TerrainData) : List ℚ :=
  (sampleIndices data.count).flatMap (fun i =>
    let t := decodeTriangle i data.v0_u16 data.x_i16 data.y_i16
      data.bmin data.bmax data.vecRange
    [t.1.z, t.2.1.z, t.2.2.z])

/-- The approximate root bounds computed by `buildTerrainOctree`'s
sampling loop. The source seeds the min/max accumulators with
`±Infinity`; for `count ≥ 1` the loop visits at least triangle 0 and the
result is the fold over the nonempty sample lists reproduced here. For
`count = 0` the source keeps the infinite empty rectangle; the tree is
then an empty leaf and every query already returns `[]` regardless of
the stored bounds, so a dummy rectangle stands in. -/
def sampledRootBounds (data : TerrainData) : Rect :=
  match sampledXs data, sampledZs data with
  | x0 :: xs, z0 :: zs =>
      ⟨xs.foldl qmin x0, xs.foldl qmax x0, zs.foldl qmin z0, zs.foldl qmax z0⟩
  | _, _ => ⟨0, 0, 0, 0⟩

/-- `buildTerrainOctree` from `terrainUtils.ts`: seeds the root with all
triangle indices `[0, count)`, subdivides with `maxDepth = 6`, and
publishes the tree with `octreeReady = true`. -/
def buildTerrainOctree (st : TerrainState) : TerrainState :=
  match st.terrainData with
  | none => st
  | some data =>
      let root := OctreeNode.mk (sampledRootBounds data) (List.range data.count) none
      { st with octree := some (subdivideOctree (some data) root 0 6),
                octreeReady := true }

/-- Ray parameter of the downward ray `origin (x, 450, z)`,
`direction (0, −1, 0)` against decoded triangle `triIdx`
(the per-candidate test inside the height queries). -/
def hitT (data : TerrainData) (x z : ℚ) (triIdx : ℕ) : Option ℚ :=
  let t := decodeTriangle triIdx data.v0_u16 data.x_i16 data.y_i16
    data.bmin data.bmax data.vecRange
  rayTriangleIntersect ⟨x, 450, z⟩ ⟨0, -1, 0⟩ t.1 t.2.1 t.2.2

/-- One update of the `closestDist` accumulator
(`if (t !== null && t < closestDist)`; `none` is the initial `Infinity`). -/
def closestStep (closest h : Option ℚ) : Option ℚ :=
  match h, closest with
  | some t, none => some t
  | some t, some d => if t < d then some t else some d
  | none, c => c

/-- The minimal hit parameter over a candidate list, as accumulated by
the intersection loops of both height queries. -/
def bestHit (data : TerrainData) (x z : ℚ) (cands : List ℕ) : Option ℚ :=
  cands.foldl (fun closest triIdx => closestStep closest (hitT data x z triIdx)) none

/-- `getTerrainHeightFromOctree` from `terrainUtils.ts`. The source
tracks `closestY = rayOrigin.y − t` alongside `closestDist`; at the end
`closestY = 450 − closestDist`, reproduced here from the minimal `t`. -/
def getTerrainHeightFromOctree (st : TerrainState) (x z : ℚ)
    (lastValidHeight : ℚ := 2) : ℚ :=
  match st.terrainData, st.octree, st.octreeReady with
  | some data, some _, true =>
      let nearbyTriangles := queryOctree st x z
      if nearbyTriangles = [] then lastValidHeight
      else
        match bestHit data x z nearbyTriangles with
        | none => lastValidHeight
        | some t => 450 - t
  | _, _, _ => lastValidHeight

/-- The cheap XZ search-radius rejection of `findTerrainHeight`. -/
def searchReject (data : TerrainData) (x z searchRadius : ℚ) (i : ℕ) : Bool :=
  let bb := triBBox data i
  bb.maxX < x - searchRadius ∨ bb.minX > x + searchRadius ∨
    bb.maxZ < z - searchRadius ∨ bb.minZ > z + searchRadius

/-- `findTerrainHeight` from `terrainUtils.ts`: the exhaustive scan over
all triangles with search-radius pre-rejection; `none` for `null`. -/
def findTerrainHeight (st : TerrainState) (x z : ℚ)
    (searchRadius : ℚ := 50) : Option ℚ :=
  match st.terrainData with
  | none => none
  | some data =>
      match (List.range data.count).foldl (fun closest i =>
          if searchReject data x z searchRadius i then closest
          else closestStep closest (hitT data x z i)) none with
      | none => none
      | some t => some (450 - t)

/-- Height of the index tree: number of subdivision levels below a node. -/
def treeHeight : OctreeNode → ℕ
  | .mk _ _ none => 0
  | .mk _ _ (some (c0, c1, c2, c3)) =>
      1 + max (max (treeHeight c0) (treeHeight c1))
        (max (treeHeight c2) (treeHeight c3))

/-- The leaves of an index tree. -/
def leavesOf : OctreeNode → List OctreeNode
  | .mk b t none => [.mk b t none]
  | .mk _ _ (some (c0, c1, c2, c3)) =>
      leavesOf c0 ++ leavesOf c1 ++ leavesOf c2 ++ leavesOf c3

/-- A node without children. -/
def OctreeNode.isLeaf (n : OctreeNode) : Bool := n.children.isNone

/-! ### The ITRI binary parser (`parseITRI` from `InstancedTriangles.tsx`)

The `ArrayBuffer` is a byte list; `DataView` reads and typed-array view
construction fail (JS `RangeError`) exactly when they would read out of
bounds or violate the view's alignment. The three `f32` header fields
are kept as their raw little-endian `u32` bit patterns: no claim depends
on their floating-point value, only on whether reading them succeeds. -/

/-- `dv.getUint8(o)`: fails when `o` is past the end of the buffer. -/
def getUint8 (ab : List ℕ) (o : ℕ) : Except String ℕ :=
  match ab[o]? with
  | some b => .ok b
  | none => .error "RangeError"

/-- `dv.getUint32(o, true)` (little endian). -/
def getUint32LE (ab : List ℕ) (o : ℕ) : Except String ℕ := do
  let b0 ← getUint8 ab o
  let b1 ← getUint8 ab (o + 1)
  let b2 ← getUint8 ab (o + 2)
  let b3 ← getUint8 ab (o + 3)
  return b0 + 256 * b1 + 65536 * b2 + 16777216 * b3

/-- `dv.getFloat32(o, true)`, kept as the raw `u32` bit pattern. -/
def getFloat32Bits (ab : List ℕ) (o : ℕ) : Except String ℕ :=
  getUint32LE ab o

/-- Elements of a `Uint16Array` view (little-endian byte pairs). -/
def u16ViewElems (ab : List ℕ) (off n : ℕ) : List ℕ :=
  (List.range n).map (fun k => ab.getD (off + 2 * k) 0 + 256 * ab.getD (off + 2 * k + 1) 0)

/-- `new Uint16Array(ab, off, n)`: `RangeError` when misaligned or when
`off + 2n` exceeds the buffer length. -/
def mkUint16View (ab : List ℕ) (off n : ℕ) : Except String (List ℕ) :=
  if off % 2 ≠ 0 ∨ off + 2 * n > ab.length then .error "RangeError"
  else .ok (u16ViewElems ab off n)

/-- Two's-complement reinterpretation of a u16 word as an i16. -/
def toI16 (w : ℕ) : ℤ := if w < 32768 then (w : ℤ) else (w : ℤ) - 65536

/-- `new Int16Array(ab, off, n)`. -/
def mkInt16View (ab : List ℕ) (off n : ℕ) : Except String (List ℤ) :=
  if off % 2 ≠ 0 ∨ off + 2 * n > ab.length then .error "RangeError"
  else .ok ((u16ViewElems ab off n).map toI16)

/-- `new Uint8Array(ab, off, n)`. -/
def mkUint8View (ab : List ℕ) (off n : ℕ) : Except String (List ℕ) :=
  if off + n > ab.length then .error "RangeError"
  else .ok ((List.range n).map (fun k => ab.getD (off + k) 0))

/-- Elements of a `Float32Array` view as raw little-endian `u32` words. -/
def f32ViewElems (ab : List ℕ) (off n : ℕ) : List ℕ :=
  (List.range n).map (fun k =>
    ab.getD (off + 4 * k) 0 + 256 * ab.getD (off + 4 * k + 1) 0 +
      65536 * ab.getD (off + 4 * k + 2) 0 + 16777216 * ab.getD (off + 4 * k + 3) 0)

/-- `new Float32Array(ab, off, n)`: requires 4-byte alignment. -/
def mkFloat32View (ab : List ℕ) (off n : ℕ) : Except String (List ℕ) :=
  if off % 4 ≠ 0 ∨ off + 4 * n > ab.length then .error "RangeError"
  else .ok (f32ViewElems ab off n)

/-- Reassemble `u32` words from a copied byte array (the unaligned-uv
fallback path of `parseITRI`). -/
def bytesToU32 (bytes : List ℕ) (n : ℕ) : List ℕ :=
  (List.range n).map (fun k =>
    bytes.getD (4 * k) 0 + 256 * bytes.getD (4 * k + 1) 0 +
      65536 * bytes.getD (4 * k + 2) 0 + 16777216 * bytes.getD (4 * k + 3) 0)

/-- The `ITRIData` record produced by `parseITRI` (`f32` fields as raw
bit patterns, uv words as raw `u32` values). -/
structure ITRIData where
  count : ℕ
  flags : ℕ
  bminBits : ℕ × ℕ × ℕ
  bmaxBits : ℕ × ℕ × ℕ
  vecRangeBits : ℕ
  v0_u16 : List ℕ
  x_i16 : List ℤ
  y_i16 : List ℤ
  colors : Option (List ℕ)
  uvs : Option (List ℕ)
deriving DecidableEq, Repr

/-- `parseITRI` from `InstancedTriangles.tsx`. Magic bytes `"ITRI"` are
the ASCII codes `73, 84, 82, 73`. -/
def parseITRI (ab : List ℕ) : Except String ITRIData := do
  let m0 ← getUint8 ab 0
  let m1 ← getUint8 ab 1
  let m2 ← getUint8 ab 2
  let m3 ← getUint8 ab 3
  if ¬(m0 = 73 ∧ m1 = 84 ∧ m2 = 82 ∧ m3 = 73) then throw "Invalid ITRI magic"
  let version ← getUint32LE ab 4
  if version ≠ 1 then throw "Unsupported ITRI version"
  let count ← getUint32LE ab 8
  let flags ← getUint32LE ab 12
  let v0Off ← getUint32LE ab 20
  let xOff ← getUint32LE ab 24
  let yOff ← getUint32LE ab 28
  let cOff ← getUint32LE ab 32
  let uvOff ← getUint32LE ab 36
  let bminx ← getFloat32Bits ab 44
  let bminy ← getFloat32Bits ab 48
  let bminz ← getFloat32Bits ab 52
  let bmaxx ← getFloat32Bits ab 56
  let bmaxy ← getFloat32Bits ab 60
  let bmaxz ← getFloat32Bits ab 64
  let vecRange ← getFloat32Bits ab 68
  let v0_u16 ← mkUint16View ab v0Off (count * 3)
  let x_i16 ← mkInt16View ab xOff (count * 3)
  let y_i16 ← mkInt16View ab yOff (count * 3)
  let hasColor := flags.testBit 0
  let hasUvs := flags.testBit 1
  let colors ←
    if hasColor ∧ cOff ≠ 0 then do
      let c ← mkUint8View ab cOff (count * 4)
      pure (some c)
    else pure none
  let uvs ←
    if hasUvs ∧ uvOff ≠ 0 then
      if uvOff % 4 = 0 then do
        let u ← mkFloat32View ab uvOff (count * 6)
        pure (some u)
      else do
        let tempBytes ← mkUint8View ab uvOff (count * 6 * 4)
        pure (some (bytesToU32 tempBytes (count * 6)))
    else pure none
  return ⟨count, flags, (bminx, bminy, bminz), (bmaxx, bmaxy, bmaxz), vecRange,
    v0_u16, x_i16, y_i16, colors, uvs⟩

/-! ### Auxiliary notions used by the statements -/

/-- A well-formed rectangle (non-empty extent on both axes). -/
def rectWF (r : Rect) : Prop := r.minX ≤ r.maxX ∧ r.minZ ≤ r.maxZ

/-- Rectangle containment (`r` inside `s`). -/
def rectSub (r s : Rect) : Prop :=
  s.minX ≤ r.minX ∧ r.maxX ≤ s.maxX ∧ s.minZ ≤ r.minZ ∧ r.maxZ ≤ s.maxZ

/-- The `closestDist` fold shared by both height queries, abstracted
over the per-index hit test. -/
def foldClosest (f : ℕ → Option ℚ) (acc : Option ℚ) (L : List ℕ) : Option ℚ :=
  L.foldl (fun closest i => closestStep closest (f i)) acc

/-- The Möller–Trumbore denominator `a = edge1 · (rayDir × edge2)`. -/
def mtA (rayDir v0 v1 v2 : Vec3) : ℚ :=
  dotVec (subVectors v1 v0) (crossVectors rayDir (subVectors v2 v0))

/-- The barycentric-like parameter `u = (1/a) * (s · h)`. -/
def mtU (rayOrigin rayDir v0 v1 v2 : Vec3) : ℚ :=
  (1 / mtA rayDir v0 v1 v2) *
    dotVec (subVectors rayOrigin v0) (crossVectors rayDir (subVectors v2 v0))

/-- The barycentric-like parameter `v = (1/a) * (rayDir · q)`. -/
def mtV (rayOrigin rayDir v0 v1 v2 : Vec3) : ℚ :=
  (1 / mtA rayDir v0 v1 v2) *
    dotVec rayDir (crossVectors (subVectors rayOrigin v0) (subVectors v1 v0))

/-- The ray parameter `t = (1/a) * (edge2 · q)` of the algebraic solve. -/
def mtT (rayOrigin rayDir v0 v1 v2 : Vec3) : ℚ :=
  (1 / mtA rayDir v0 v1 v2) *
    dotVec (subVectors v2 v0) (crossVectors (subVectors rayOrigin v0) (subVectors v1 v0))

/-! ### Concrete data used by witnesses and counterexamples -/

/-- Ten degenerate triangles at the origin: enough to exercise the
build while staying far below the 500-triangle split threshold. -/
def tenTriangleData : TerrainData :=
  ⟨10, List.replicate 30 0, List.replicate 30 0, List.replicate 30 0,
   ⟨0, 0, 0⟩, ⟨0, 0, 0⟩, 0⟩

/-- Two triangles whose decode parameters make dequantization the
identity (`bmax − bmin = 65535`, `vecRange = 32767`): triangle 0 spans
world XZ `(0,0)-(2,0)-(0,−2)` at height 0, triangle 1 the same shape
shifted to `x = 1000`. Only triangle 0 is sampled by the root-bounds
loop (`count = 2 < 100`), so the root rectangle misses triangle 1. -/
def twoTriangleData : TerrainData :=
  ⟨2, [0, 0, 0, 1000, 0, 0], [2, 0, 0, 2, 0, 0], [0, 2, 0, 0, 2, 0],
   ⟨0, 0, 0⟩, ⟨65535, 65535, 65535⟩, 32767⟩

/-- A fresh state holding a terrain with no index built yet. -/
def stateWith (data : TerrainData) : TerrainState := ⟨some data, none, false⟩

/-- A minimal well-formed ITRI buffer: 72-byte header, magic `"ITRI"`,
version 1, zero triangles, all three mandatory arrays at offset 72. -/
def okBuffer : List ℕ :=
  [73, 84, 82, 73, 1, 0, 0, 0, 0, 0, 0, 0, 0, 0, 0, 0,
   72, 0, 0, 0, 72, 0, 0, 0, 72, 0, 0, 0, 72, 0, 0, 0,
   0, 0, 0, 0, 0, 0, 0, 0, 0, 0, 0, 0] ++ List.replicate 28 0

/-! ## Theorems -/

/-- The defining equation of `subdivideOctree`, in the shape of the
source: stop when `depth >= maxDepth || node.triangles.length < 500`,
otherwise split into four quadrants, distribute the parent's indices to
every overlapping child, clear the parent, and recurse at `depth + 1`. -/
theorem subdivideOctree_eq (td : Option TerrainData) (node : OctreeNode)
    (depth maxDepth : ℕ) :
    subdivideOctree td node depth maxDepth =
      if depth ≥ maxDepth ∨ node.triangles.length < 500 then node
      else
        let b := node.bounds
        let midX := (b.minX + b.maxX) / 2
        let midZ := (b.minZ + b.maxZ) / 2
        let r0 : Rect := ⟨b.minX, midX, b.minZ, midZ⟩
        let r1 : Rect := ⟨midX, b.maxX, b.minZ, midZ⟩
        let r2 : Rect := ⟨b.minX, midX, midZ, b.maxZ⟩
        let r3 : Rect := ⟨midX, b.maxX, midZ, b.maxZ⟩
        match td with
        | none =>
            .mk b node.triangles
              (some (.mk r0 [] none, .mk r1 [] none, .mk r2 [] none, .mk r3 [] none))
        | some data =>
            let fill : Rect → OctreeNode := fun r =>
              .mk r (node.triangles.filter (fun triIdx =>
                decide (rectOverlap (triBBox data triIdx) r))) none
            .mk b []
              (some (subdivideOctree td (fill r0) (depth + 1) maxDepth,
                     subdivideOctree td (fill r1) (depth + 1) maxDepth,
                     subdivideOctree td (fill r2) (depth + 1) maxDepth,
                     subdivideOctree td (fill r3) (depth + 1) maxDepth)) := by
  unfold subdivideOctree
  rcases h : maxDepth - depth with _ | fuel
  · have hd : depth ≥ maxDepth := by omega
    simp [subdivideAux, hd]
  · have h2 : maxDepth - (depth + 1) = fuel := by omega
    by_cases hc : depth ≥ maxDepth ∨ node.triangles.length < 500
    · simp [subdivideAux, hc]
    · simp only [subdivideAux, if_neg hc, h2]

theorem qmin_le_left (a b : ℚ) : qmin a b ≤ a := by
  unfold qmin; split_ifs <;> linarith

theorem qmin_le_right (a b : ℚ) : qmin a b ≤ b := by
  unfold qmin; split_ifs <;> linarith

theorem left_le_qmax (a b : ℚ) : a ≤ qmax a b := by
  unfold qmax; split_ifs <;> linarith

theorem right_le_qmax (a b : ℚ) : b ≤ qmax a b := by
  unfold qmax; split_ifs <;> linarith

theorem foldl_qmin_le (xs : List ℚ) (acc : ℚ) : xs.foldl qmin acc ≤ acc := by
  induction xs generalizing acc with
  | nil => simp
  | cons a xs ih =>
      calc (a :: xs).foldl qmin acc = xs.foldl qmin (qmin acc a) := rfl
        _ ≤ qmin acc a := ih _
        _ ≤ acc := qmin_le_left _ _

theorem le_foldl_qmax (xs : List ℚ) (acc : ℚ) : acc ≤ xs.foldl qmax acc := by
  induction xs generalizing acc with
  | nil => simp
  | cons a xs ih =>
      calc acc ≤ qmax acc a := left_le_qmax _ _
        _ ≤ xs.foldl qmax (qmax acc a) := ih _
        _ = (a :: xs).foldl qmax acc := rfl

/-- The root rectangle computed by the sampling loop is well formed. -/
theorem sampledRootBounds_wf (data : TerrainData) : rectWF (sampledRootBounds data) := by
  unfold sampledRootBounds
  rcases hx : sampledXs data with _ | ⟨x0, xs⟩ <;>
    rcases hz : sampledZs data with _ | ⟨z0, zs⟩ <;>
    constructor <;>
    simp only
  · exact le_refl _
  · exact le_refl _
  · exact le_refl _
  · exact le_refl _
  · exact le_refl _
  · exact le_refl _
  · exact le_trans (foldl_qmin_le xs x0) (le_foldl_qmax xs x0)
  · exact le_trans (foldl_qmin_le zs z0) (le_foldl_qmax zs z0)

theorem closestStep_eq_none (c h : Option ℚ) :
    closestStep c h = none ↔ c = none ∧ h = none := by
  cases c <;> cases h <;> simp [closestStep]
  split_ifs <;> simp

theorem closestStep_some_src (c h : Option ℚ) (t : ℚ)
    (hs : closestStep c h = some t) : c = some t ∨ h = some t := by
  cases c with
  | none =>
      cases h with
      | none => simp [closestStep] at hs
      | some u => exact Or.inr hs
  | some d =>
      cases h with
      | none => exact Or.inl hs
      | some u =>
          simp only [closestStep] at hs
          split_ifs at hs
          · exact Or.inr hs
          · exact Or.inl hs

theorem foldClosest_nil (f : ℕ → Option ℚ) (acc : Option ℚ) :
    foldClosest f acc [] = acc := rfl

theorem foldClosest_cons (f : ℕ → Option ℚ) (acc : Option ℚ) (a : ℕ) (L : List ℕ) :
    foldClosest f acc (a :: L) = foldClosest f (closestStep acc (f a)) L := rfl

/-- The fold returns `none` exactly when it started from `none` and no
element hits. -/
theorem foldClosest_none_iff (f : ℕ → Option ℚ) (L : List ℕ) (acc : Option ℚ) :
    foldClosest f acc L = none ↔ acc = none ∧ ∀ i ∈ L, f i = none := by
  induction L generalizing acc with
  | nil => simp [foldClosest]
  | cons a l ih =>
      rw [foldClosest_cons, ih, closestStep_eq_none]
      constructor
      · rintro ⟨⟨hc, ha⟩, hall⟩
        exact ⟨hc, by
          intro i hi
          rcases List.mem_cons.mp hi with h | h
          · exact h ▸ ha
          · exact hall i h⟩
      · rintro ⟨hc, hall⟩
        exact ⟨⟨hc, hall a (by simp)⟩, fun i hi => hall i (by simp [hi])⟩

/-- A `some` result of the fold is the value of the accumulator or of
some element of the list. -/
theorem foldClosest_mem (f : ℕ → Option ℚ) (L : List ℕ) (acc : Option ℚ) (t : ℚ)
    (h : foldClosest f acc L = some t) : acc = some t ∨ ∃ i ∈ L, f i = some t := by
  induction L generalizing acc with
  | nil => exact Or.inl h
  | cons a l ih =>
      rw [foldClosest_cons] at h
      rcases ih _ h with hstep | ⟨i, hi, hfi⟩
      · rcases closestStep_some_src _ _ _ hstep with hc | hh
        · exact Or.inl hc
        · exact Or.inr ⟨a, by simp, hh⟩
      · exact Or.inr ⟨i, by simp [hi], hfi⟩

/-- The result of the fold is a lower bound of the accumulator and of
every element's hit value. -/
theorem foldClosest_le (f : ℕ → Option ℚ) (L : List ℕ) (acc : Option ℚ) (t : ℚ)
    (h : foldClosest f acc L = some t) :
    (∀ d, acc = some d → t ≤ d) ∧ (∀ i ∈ L, ∀ u, f i = some u → t ≤ u) := by
  induction L generalizing acc with
  | nil =>
      refine ⟨fun d hd => ?_, fun i hi => by simp at hi⟩
      rw [foldClosest_nil, hd] at h
      simp only [Option.some.injEq] at h
      exact le_of_eq h.symm
  | cons a l ih =>
      rw [foldClosest_cons] at h
      obtain ⟨hacc, hl⟩ := ih _ h
      constructor
      · intro d hd
        rcases hfa : f a with _ | u
        · exact hacc d (by simp [closestStep, hd, hfa])
        · by_cases hud : u < d
          · have : t ≤ u := hacc u (by simp [closestStep, hd, hfa, hud])
            linarith
          · exact hacc d (by simp [closestStep, hd, hfa, if_neg hud])
      · intro i hi u hfi
        rcases List.mem_cons.mp hi with rfl | hmem
        · rcases hc : acc with _ | d
          · exact hacc u (by simp [closestStep, hc, hfi])
          · by_cases hud : u < d
            · exact hacc u (by simp [closestStep, hc, hfi, hud])
            · have : t ≤ d := hacc d (by simp [closestStep, hc, hfi, if_neg hud])
              linarith [not_lt.mp hud]
        · exact hl i hmem u hfi

/-- Two `closestDist` folds over hit-sets with the same hit values
produce the same result (duplicates and order are irrelevant). -/
theorem foldClosest_congr (f g : ℕ → Option ℚ) (L M : List ℕ)
    (h : ∀ t, (∃ i ∈ L, f i = some t) ↔ (∃ j ∈ M, g j = some t)) :
    foldClosest f none L = foldClosest g none M := by
  cases hL : foldClosest f none L with
  | none =>
      cases hM : foldClosest g none M with
      | none => rfl
      | some t =>
          rcases foldClosest_mem g M none t hM with hc | hex
          · exact absurd hc (by simp)
          · obtain ⟨i, hi, hfi⟩ := (h t).mpr hex
            have hnone := (foldClosest_none_iff f L none).mp hL
            rw [hnone.2 i hi] at hfi
            exact absurd hfi (by simp)
  | some t =>
      cases hM : foldClosest g none M with
      | none =>
          rcases foldClosest_mem f L none t hL with hc | hex
          · exact absurd hc (by simp)
          · obtain ⟨j, hj, hgj⟩ := (h t).mp hex
            have hnone := (foldClosest_none_iff g M none).mp hM
            rw [hnone.2 j hj] at hgj
            exact absurd hgj (by simp)
      | some u =>
          rcases foldClosest_mem f L none t hL with hc | hexL
          · exact absurd hc (by simp)
          rcases foldClosest_mem g M none u hM with hc | hexM
          · exact absurd hc (by simp)
          obtain ⟨j, hj, hgj⟩ := (h t).mp hexL
          obtain ⟨i, hi, hfi⟩ := (h u).mpr hexM
          have h1 : t ≤ u := (foldClosest_le f L none t hL).2 i hi u hfi
          have h2 : u ≤ t := (foldClosest_le g M none u hM).2 j hj t hgj
          rw [le_antisymm h1 h2]

/-- The source's hit condition, characterized by the algebraic
Möller–Trumbore quantities: a triangle is hit exactly when the
denominator `a` is at least `EPSILON` away from zero, `u ≥ 0`, `v ≥ 0`,
`u + v ≤ 1` and the ray parameter `t` exceeds `EPSILON` (the source's
additional `u ≤ 1` test is implied by `v ≥ 0 ∧ u + v ≤ 1`). -/
theorem rayTriangleIntersect_eq_some_iff (o d v0 v1 v2 : Vec3) (t : ℚ) :
    rayTriangleIntersect o d v0 v1 v2 = some t ↔
      (mtA d v0 v1 v2 ≤ -EPSILON ∨ EPSILON ≤ mtA d v0 v1 v2) ∧
      0 ≤ mtU o d v0 v1 v2 ∧ 0 ≤ mtV o d v0 v1 v2 ∧
      mtU o d v0 v1 v2 + mtV o d v0 v1 v2 ≤ 1 ∧
      EPSILON < t ∧ t = mtT o d v0 v1 v2 := by
  unfold rayTriangleIntersect mtU mtV mtT mtA
  dsimp only
  split_ifs with h1 h2 h3 h4
  · simp only [false_iff]
    rintro ⟨ha, -, -, -, -, -⟩
    rcases ha with ha | ha <;> linarith [h1.1, h1.2]
  · simp only [false_iff]
    rintro ⟨-, hu, hv, hs, -, -⟩
    rcases h2 with h2 | h2 <;> linarith
  · simp only [false_iff]
    rintro ⟨-, hu, hv, hs, -, -⟩
    rcases h3 with h3 | h3 <;> linarith
  · constructor
    · intro h
      injection h with h
      refine ⟨?_, ?_, ?_, ?_, ?_, h.symm⟩
      · rcases not_and_or.mp h1 with h | h
        · exact Or.inl (not_lt.mp h)
        · exact Or.inr (not_lt.mp h)
      · rcases not_or.mp h2 with ⟨hu, -⟩
        exact not_lt.mp hu
      · rcases not_or.mp h3 with ⟨hv, -⟩
        exact not_lt.mp hv
      · rcases not_or.mp h3 with ⟨-, hs⟩
        exact not_lt.mp hs
      · exact h ▸ h4
    · rintro ⟨-, -, -, -, -, rfl⟩
      rfl
  · simp only [false_iff]
    rintro ⟨-, -, -, -, ht, rfl⟩
    exact h4 ht

theorem mt_solve_x (o v0 v1 v2 : Vec3) (ha : mtA ⟨0, -1, 0⟩ v0 v1 v2 ≠ 0) :
    o.x = (1 - mtU o ⟨0, -1, 0⟩ v0 v1 v2 - mtV o ⟨0, -1, 0⟩ v0 v1 v2) * v0.x +
      mtU o ⟨0, -1, 0⟩ v0 v1 v2 * v1.x + mtV o ⟨0, -1, 0⟩ v0 v1 v2 * v2.x := by
  have hAm : mtA ⟨0, -1, 0⟩ v0 v1 v2 * (1 / mtA ⟨0, -1, 0⟩ v0 v1 v2) = 1 :=
    mul_one_div_cancel ha
  have hAu : mtA ⟨0, -1, 0⟩ v0 v1 v2 * mtU o ⟨0, -1, 0⟩ v0 v1 v2 =
      dotVec (subVectors o v0) (crossVectors ⟨0, -1, 0⟩ (subVectors v2 v0)) := by
    unfold mtU
    rw [← mul_assoc, hAm, one_mul]
  have hAv : mtA ⟨0, -1, 0⟩ v0 v1 v2 * mtV o ⟨0, -1, 0⟩ v0 v1 v2 =
      dotVec ⟨0, -1, 0⟩ (crossVectors (subVectors o v0) (subVectors v1 v0)) := by
    unfold mtV
    rw [← mul_assoc, hAm, one_mul]
  apply mul_left_cancel₀ ha
  unfold mtA dotVec crossVectors subVectors at hAu hAv ⊢
  dsimp only at hAu hAv ⊢
  linear_combination (v0.x - v1.x) * hAu + (v0.x - v2.x) * hAv

theorem mt_solve_z (o v0 v1 v2 : Vec3) (ha : mtA ⟨0, -1, 0⟩ v0 v1 v2 ≠ 0) :
    o.z = (1 - mtU o ⟨0, -1, 0⟩ v0 v1 v2 - mtV o ⟨0, -1, 0⟩ v0 v1 v2) * v0.z +
      mtU o ⟨0, -1, 0⟩ v0 v1 v2 * v1.z + mtV o ⟨0, -1, 0⟩ v0 v1 v2 * v2.z := by
  have hAm : mtA ⟨0, -1, 0⟩ v0 v1 v2 * (1 / mtA ⟨0, -1, 0⟩ v0 v1 v2) = 1 :=
    mul_one_div_cancel ha
  have hAu : mtA ⟨0, -1, 0⟩ v0 v1 v2 * mtU o ⟨0, -1, 0⟩ v0 v1 v2 =
      dotVec (subVectors o v0) (crossVectors ⟨0, -1, 0⟩ (subVectors v2 v0)) := by
    unfold mtU
    rw [← mul_assoc, hAm, one_mul]
  have hAv : mtA ⟨0, -1, 0⟩ v0 v1 v2 * mtV o ⟨0, -1, 0⟩ v0 v1 v2 =
      dotVec ⟨0, -1, 0⟩ (crossVectors (subVectors o v0) (subVectors v1 v0)) := by
    unfold mtV
    rw [← mul_assoc, hAm, one_mul]
  apply mul_left_cancel₀ ha
  unfold mtA dotVec crossVectors subVectors at hAu hAv ⊢
  dsimp only at hAu hAv ⊢
  linear_combination (v0.z - v1.z) * hAu + (v0.z - v2.z) * hAv

theorem convex3_lower (m a b c u v : ℚ) (hma : m ≤ a) (hmb : m ≤ b) (hmc : m ≤ c)
    (hu : 0 ≤ u) (hv : 0 ≤ v) (hs : u + v ≤ 1) :
    m ≤ (1 - u - v) * a + u * b + v * c := by
  nlinarith [mul_nonneg (by linarith : (0:ℚ) ≤ 1 - u - v) (by linarith : (0:ℚ) ≤ a - m),
             mul_nonneg hu (by linarith : (0:ℚ) ≤ b - m),
             mul_nonneg hv (by linarith : (0:ℚ) ≤ c - m)]

theorem convex3_upper (M a b c u v : ℚ) (haM : a ≤ M) (hbM : b ≤ M) (hcM : c ≤ M)
    (hu : 0 ≤ u) (hv : 0 ≤ v) (hs : u + v ≤ 1) :
    (1 - u - v) * a + u * b + v * c ≤ M := by
  nlinarith [mul_nonneg (by linarith : (0:ℚ) ≤ 1 - u - v) (by linarith : (0:ℚ) ≤ M - a),
             mul_nonneg hu (by linarith : (0:ℚ) ≤ M - b),
             mul_nonneg hv (by linarith : (0:ℚ) ≤ M - c)]

/-- A triangle hit by the vertical downward ray at `(x, z)` has the
query point inside its XZ extent: the intersection point is a convex
combination of the three vertices. -/
theorem hit_in_xz_range (x z : ℚ) (v0 v1 v2 : Vec3) (t : ℚ)
    (h : rayTriangleIntersect ⟨x, 450, z⟩ ⟨0, -1, 0⟩ v0 v1 v2 = some t) :
    qmin v0.x (qmin v1.x v2.x) ≤ x ∧ x ≤ qmax v0.x (qmax v1.x v2.x) ∧
    qmin v0.z (qmin v1.z v2.z) ≤ z ∧ z ≤ qmax v0.z (qmax v1.z v2.z) := by
  rw [rayTriangleIntersect_eq_some_iff] at h
  obtain ⟨ha, hu, hv, hs, -, -⟩ := h
  have hane : mtA ⟨0, -1, 0⟩ v0 v1 v2 ≠ 0 := by
    rcases ha with h | h <;> intro h0 <;> rw [h0] at h <;> norm_num [EPSILON] at h
  have hx := mt_solve_x ⟨x, 450, z⟩ v0 v1 v2 hane
  have hz := mt_solve_z ⟨x, 450, z⟩ v0 v1 v2 hane
  dsimp only at hx hz
  refine ⟨?_, ?_, ?_, ?_⟩
  · rw [hx]
    exact convex3_lower _ _ _ _ _ _ (qmin_le_left _ _)
      (le_trans (qmin_le_right _ _) (qmin_le_left _ _))
      (le_trans (qmin_le_right _ _) (qmin_le_right _ _)) hu hv hs
  · rw [hx]
    exact convex3_upper _ _ _ _ _ _ (left_le_qmax _ _)
      (le_trans (left_le_qmax _ _) (right_le_qmax _ _))
      (le_trans (right_le_qmax _ _) (right_le_qmax _ _)) hu hv hs
  · rw [hz]
    exact convex3_lower _ _ _ _ _ _ (qmin_le_left _ _)
      (le_trans (qmin_le_right _ _) (qmin_le_left _ _))
      (le_trans (qmin_le_right _ _) (qmin_le_right _ _)) hu hv hs
  · rw [hz]
    exact convex3_upper _ _ _ _ _ _ (left_le_qmax _ _)
      (le_trans (left_le_qmax _ _) (right_le_qmax _ _))
      (le_trans (right_le_qmax _ _) (right_le_qmax _ _)) hu hv hs

/-- A hit triangle's XZ bounding box contains the query point. -/
theorem hitT_mem_bbox (data : TerrainData) (x z : ℚ) (i : ℕ) (t : ℚ)
    (h : hitT data x z i = some t) : pointInRect x z (triBBox data i) := by
  unfold hitT at h
  dsimp only at h
  obtain ⟨h1, h2, h3, h4⟩ := hit_in_xz_range _ _ _ _ _ _ h
  unfold pointInRect triBBox
  dsimp only
  exact ⟨h1, h2, h3, h4⟩

theorem subdivideAux_succ (td : Option TerrainData) (fuel : ℕ) (node : OctreeNode)
    (d m : ℕ) :
    subdivideAux td (fuel + 1) node d m =
      if d ≥ m ∨ node.triangles.length < 500 then node
      else
        match td with
        | none =>
            .mk node.bounds node.triangles
              (some (.mk ⟨node.bounds.minX, (node.bounds.minX + node.bounds.maxX) / 2,
                          node.bounds.minZ, (node.bounds.minZ + node.bounds.maxZ) / 2⟩ [] none,
                     .mk ⟨(node.bounds.minX + node.bounds.maxX) / 2, node.bounds.maxX,
                          node.bounds.minZ, (node.bounds.minZ + node.bounds.maxZ) / 2⟩ [] none,
                     .mk ⟨node.bounds.minX, (node.bounds.minX + node.bounds.maxX) / 2,
                          (node.bounds.minZ + node.bounds.maxZ) / 2, node.bounds.maxZ⟩ [] none,
                     .mk ⟨(node.bounds.minX + node.bounds.maxX) / 2, node.bounds.maxX,
                          (node.bounds.minZ + node.bounds.maxZ) / 2, node.bounds.maxZ⟩ [] none))
        | some data =>
            .mk node.bounds []
              (some (subdivideAux td fuel
                       (.mk ⟨node.bounds.minX, (node.bounds.minX + node.bounds.maxX) / 2,
                             node.bounds.minZ, (node.bounds.minZ + node.bounds.maxZ) / 2⟩
                         (node.triangles.filter (fun triIdx =>
                           decide (rectOverlap (triBBox data triIdx)
                             ⟨node.bounds.minX, (node.bounds.minX + node.bounds.maxX) / 2,
                              node.bounds.minZ, (node.bounds.minZ + node.bounds.maxZ) / 2⟩)))
                         none) (d + 1) m,
                     subdivideAux td fuel
                       (.mk ⟨(node.bounds.minX + node.bounds.maxX) / 2, node.bounds.maxX,
                             node.bounds.minZ, (node.bounds.minZ + node.bounds.maxZ) / 2⟩
                         (node.triangles.filter (fun triIdx =>
                           decide (rectOverlap (triBBox data triIdx)
                             ⟨(node.bounds.minX + node.bounds.maxX) / 2, node.bounds.maxX,
                              node.bounds.minZ, (node.bounds.minZ + node.bounds.maxZ) / 2⟩)))
                         none) (d + 1) m,
                     subdivideAux td fuel
                       (.mk ⟨node.bounds.minX, (node.bounds.minX + node.bounds.maxX) / 2,
                             (node.bounds.minZ + node.bounds.maxZ) / 2, node.bounds.maxZ⟩
                         (node.triangles.filter (fun triIdx =>
                           decide (rectOverlap (triBBox data triIdx)
                             ⟨node.bounds.minX, (node.bounds.minX + node.bounds.maxX) / 2,
                              (node.bounds.minZ + node.bounds.maxZ) / 2, node.bounds.maxZ⟩)))
                         none) (d + 1) m,
                     subdivideAux td fuel
                       (.mk ⟨(node.bounds.minX + node.bounds.maxX) / 2, node.bounds.maxX,
                             (node.bounds.minZ + node.bounds.maxZ) / 2, node.bounds.maxZ⟩
                         (node.triangles.filter (fun triIdx =>
                           decide (rectOverlap (triBBox data triIdx)
                             ⟨(node.bounds.minX + node.bounds.maxX) / 2, node.bounds.maxX,
                              (node.bounds.minZ + node.bounds.maxZ) / 2, node.bounds.maxZ⟩)))
                         none) (d + 1) m)) := rfl

theorem queryNode_leaf (x z : ℚ) (b : Rect) (tris : List ℕ) :
    queryNode x z (.mk b tris none) =
      if x < b.minX ∨ x > b.maxX ∨ z < b.minZ ∨ z > b.maxZ then [] else tris := rfl

theorem queryNode_internal (x z : ℚ) (b : Rect) (tris : List ℕ)
    (c0 c1 c2 c3 : OctreeNode) :
    queryNode x z (.mk b tris (some (c0, c1, c2, c3))) =
      if x < b.minX ∨ x > b.maxX ∨ z < b.minZ ∨ z > b.maxZ then []
      else queryNode x z c3 ++ queryNode x z c2 ++ queryNode x z c1 ++
        queryNode x z c0 := rfl

theorem overlap_of_point_mem (tb rk : Rect) (x z : ℚ)
    (htb : pointInRect x z tb) (hrk : pointInRect x z rk) : rectOverlap tb rk := by
  obtain ⟨h1, h2, h3, h4⟩ := htb
  obtain ⟨g1, g2, g3, g4⟩ := hrk
  exact ⟨le_trans g1 h2, le_trans h1 g2, le_trans g3 h4, le_trans h3 g4⟩

/-- Every index collected by a point query of the subdivided tree was
present in the node before subdivision. -/
theorem query_subdivide_sound (data : TerrainData) (fuel : ℕ) :
    ∀ (b : Rect) (tris : List ℕ) (d m : ℕ) (x z : ℚ) (i : ℕ),
      i ∈ queryNode x z (subdivideAux (some data) fuel (.mk b tris none) d m) →
      i ∈ tris := by
  induction fuel with
  | zero =>
      intro b tris d m x z i h
      simp only [subdivideAux, queryNode_leaf] at h
      split_ifs at h
      · simp at h
      · exact h
  | succ fuel ih =>
      intro b tris d m x z i h
      rw [subdivideAux_succ] at h
      split_ifs at h with hg
      · rw [queryNode_leaf] at h
        split_ifs at h
        · simp at h
        · exact h
      · rw [queryNode_internal] at h
        split_ifs at h
        · simp at h
        · simp only [List.mem_append] at h
          rcases h with ((h | h) | h) | h <;>
            exact List.mem_of_mem_filter (ih _ _ _ _ _ _ _ h)

/-- Every index of the node whose triangle XZ box contains the query
point is collected by a point query of the subdivided tree, provided the
point lies inside the node's rectangle. -/
theorem query_subdivide_complete (data : TerrainData) (fuel : ℕ) :
    ∀ (b : Rect) (tris : List ℕ) (d m : ℕ) (x z : ℚ) (i : ℕ),
      i ∈ tris → pointInRect x z b → pointInRect x z (triBBox data i) →
      i ∈ queryNode x z (subdivideAux (some data) fuel (.mk b tris none) d m) := by
  induction fuel with
  | zero =>
      intro b tris d m x z i hi hb hbb
      simp only [subdivideAux, queryNode_leaf]
      rw [if_neg (by push_neg; exact ⟨hb.1, hb.2.1, hb.2.2.1, hb.2.2.2⟩)]
      exact hi
  | succ fuel ih =>
      intro b tris d m x z i hi hb hbb
      rw [subdivideAux_succ]
      split_ifs with hg
      · rw [queryNode_leaf]
        rw [if_neg (by push_neg; exact ⟨hb.1, hb.2.1, hb.2.2.1, hb.2.2.2⟩)]
        exact hi
      · rw [queryNode_internal]
        rw [if_neg (by push_neg; exact ⟨hb.1, hb.2.1, hb.2.2.1, hb.2.2.2⟩)]
        have main : ∀ rk : Rect, pointInRect x z rk →
            i ∈ queryNode x z (subdivideAux (some data) fuel
              (.mk rk (tris.filter (fun j =>
                decide (rectOverlap (triBBox data j) rk))) none) (d + 1) m) := by
          intro rk hrk
          exact ih rk _ (d + 1) m x z i
            (List.mem_filter.mpr ⟨hi, by
              rw [decide_eq_true_eq]
              exact overlap_of_point_mem _ _ _ _ hbb hrk⟩) hrk hbb
        simp only [List.mem_append]
        by_cases hx : x ≤ (b.minX + b.maxX) / 2 <;>
          by_cases hz : z ≤ (b.minZ + b.maxZ) / 2
        · exact Or.inr (main ⟨b.minX, (b.minX + b.maxX) / 2,
            b.minZ, (b.minZ + b.maxZ) / 2⟩ ⟨hb.1, hx, hb.2.2.1, hz⟩)
        · exact Or.inl (Or.inl (Or.inr (main ⟨b.minX, (b.minX + b.maxX) / 2,
            (b.minZ + b.maxZ) / 2, b.maxZ⟩
            ⟨hb.1, hx, le_of_lt (not_le.mp hz), hb.2.2.2⟩)))
        · exact Or.inl (Or.inr (main ⟨(b.minX + b.maxX) / 2, b.maxX,
            b.minZ, (b.minZ + b.maxZ) / 2⟩
            ⟨le_of_lt (not_le.mp hx), hb.2.1, hb.2.2.1, hz⟩))
        · exact Or.inl (Or.inl (Or.inl (main ⟨(b.minX + b.maxX) / 2, b.maxX,
            (b.minZ + b.maxZ) / 2, b.maxZ⟩
            ⟨le_of_lt (not_le.mp hx), hb.2.1, le_of_lt (not_le.mp hz), hb.2.2.2⟩)))

theorem rectSub_refl (r : Rect) : rectSub r r :=
  ⟨le_refl _, le_refl _, le_refl _, le_refl _⟩

theorem rectSub_trans (r s u : Rect) (h1 : rectSub r s) (h2 : rectSub s u) :
    rectSub r u :=
  ⟨le_trans h2.1 h1.1, le_trans h1.2.1 h2.2.1,
   le_trans h2.2.2.1 h1.2.2.1, le_trans h1.2.2.2 h2.2.2.2⟩

theorem rectOverlap_mono (tb r s : Rect) (hsub : rectSub r s)
    (h : rectOverlap tb r) : rectOverlap tb s :=
  ⟨le_trans hsub.1 h.1, le_trans h.2.1 hsub.2.1,
   le_trans hsub.2.2.1 h.2.2.1, le_trans h.2.2.2 hsub.2.2.2⟩

theorem leavesOf_leaf (b : Rect) (tris : List ℕ) :
    leavesOf (.mk b tris none) = [.mk b tris none] := rfl

theorem leavesOf_internal (b : Rect) (tris : List ℕ) (c0 c1 c2 c3 : OctreeNode) :
    leavesOf (.mk b tris (some (c0, c1, c2, c3))) =
      leavesOf c0 ++ leavesOf c1 ++ leavesOf c2 ++ leavesOf c3 := rfl

/-- Leaf invariant of the subdivision: every leaf sits inside the
original rectangle and holds every starting index whose triangle
bounding box overlaps the leaf's rectangle. -/
theorem leaves_subdivide_invariant (data : TerrainData) (fuel : ℕ) :
    ∀ (b : Rect) (tris : List ℕ) (d m : ℕ),
      rectWF b →
      ∀ ℓ ∈ leavesOf (subdivideAux (some data) fuel (.mk b tris none) d m),
        rectWF ℓ.bounds ∧ rectSub ℓ.bounds b ∧
        ∀ i ∈ tris, rectOverlap (triBBox data i) ℓ.bounds → i ∈ ℓ.triangles := by
  induction fuel with
  | zero =>
      intro b tris d m hwf ℓ hℓ
      simp only [subdivideAux, leavesOf_leaf, List.mem_singleton] at hℓ
      subst hℓ
      exact ⟨hwf, rectSub_refl _, fun i hi _ => hi⟩
  | succ fuel ih =>
      intro b tris d m hwf ℓ hℓ
      rw [subdivideAux_succ] at hℓ
      split_ifs at hℓ with hg
      · simp only [leavesOf_leaf, List.mem_singleton] at hℓ
        subst hℓ
        exact ⟨hwf, rectSub_refl _, fun i hi _ => hi⟩
      · rw [leavesOf_internal] at hℓ
        obtain ⟨hx, hz⟩ := hwf
        have hmx1 : b.minX ≤ (b.minX + b.maxX) / 2 := by linarith
        have hmx2 : (b.minX + b.maxX) / 2 ≤ b.maxX := by linarith
        have hmz1 : b.minZ ≤ (b.minZ + b.maxZ) / 2 := by linarith
        have hmz2 : (b.minZ + b.maxZ) / 2 ≤ b.maxZ := by linarith
        have step : ∀ rk : Rect, rectWF rk → rectSub rk b →
            ℓ ∈ leavesOf (subdivideAux (some data) fuel
              (.mk rk (tris.filter (fun j =>
                decide (rectOverlap (triBBox data j) rk))) none) (d + 1) m) →
            rectWF ℓ.bounds ∧ rectSub ℓ.bounds b ∧
            ∀ i ∈ tris, rectOverlap (triBBox data i) ℓ.bounds → i ∈ ℓ.triangles := by
          intro rk hrkwf hrksub hmem
          obtain ⟨hwfℓ, hsubℓ, hinv⟩ := ih rk _ (d + 1) m hrkwf ℓ hmem
          refine ⟨hwfℓ, rectSub_trans _ _ _ hsubℓ hrksub, ?_⟩
          intro i hi hov
          exact hinv i (List.mem_filter.mpr ⟨hi, by
            rw [decide_eq_true_eq]
            exact rectOverlap_mono _ _ _ hsubℓ hov⟩) hov
        simp only [List.mem_append] at hℓ
        rcases hℓ with ((h | h) | h) | h
        · exact step ⟨b.minX, (b.minX + b.maxX) / 2, b.minZ, (b.minZ + b.maxZ) / 2⟩
            ⟨hmx1, hmz1⟩ ⟨le_refl _, hmx2, le_refl _, hmz2⟩ h
        · exact step ⟨(b.minX + b.maxX) / 2, b.maxX, b.minZ, (b.minZ + b.maxZ) / 2⟩
            ⟨hmx2, hmz1⟩ ⟨hmx1, le_refl _, le_refl _, hmz2⟩ h
        · exact step ⟨b.minX, (b.minX + b.maxX) / 2, (b.minZ + b.maxZ) / 2, b.maxZ⟩
            ⟨hmx1, hmz2⟩ ⟨le_refl _, hmx2, hmz1, le_refl _⟩ h
        · exact step ⟨(b.minX + b.maxX) / 2, b.maxX, (b.minZ + b.maxZ) / 2, b.maxZ⟩
            ⟨hmx2, hmz2⟩ ⟨hmx1, le_refl _, hmz1, le_refl _⟩ h

/-- The subdivision of a childless node adds at most `maxDepth − depth`
levels. -/
theorem treeHeight_subdivideAux (td : Option TerrainData) (fuel : ℕ) :
    ∀ (b : Rect) (tris : List ℕ) (d m : ℕ),
      treeHeight (subdivideAux td fuel (.mk b tris none) d m) ≤ m - d := by
  induction fuel with
  | zero =>
      intro b tris d m
      simp [subdivideAux, treeHeight]
  | succ fuel ih =>
      intro b tris d m
      rw [subdivideAux_succ]
      dsimp only [OctreeNode.bounds, OctreeNode.triangles]
      split_ifs with hg
      · simp [treeHeight]
      · have hdm : d < m := by
          rcases not_or.mp hg with ⟨h1, -⟩
          omega
        cases td with
        | none =>
            simp only [treeHeight]
            omega
        | some data =>
            simp only [treeHeight]
            have h0 := ih ⟨b.minX, (b.minX + b.maxX) / 2, b.minZ, (b.minZ + b.maxZ) / 2⟩
              (tris.filter fun j => decide (rectOverlap (triBBox data j)
                ⟨b.minX, (b.minX + b.maxX) / 2, b.minZ, (b.minZ + b.maxZ) / 2⟩)) (d + 1) m
            have h1 := ih ⟨(b.minX + b.maxX) / 2, b.maxX, b.minZ, (b.minZ + b.maxZ) / 2⟩
              (tris.filter fun j => decide (rectOverlap (triBBox data j)
                ⟨(b.minX + b.maxX) / 2, b.maxX, b.minZ, (b.minZ + b.maxZ) / 2⟩)) (d + 1) m
            have h2 := ih ⟨b.minX, (b.minX + b.maxX) / 2, (b.minZ + b.maxZ) / 2, b.maxZ⟩
              (tris.filter fun j => decide (rectOverlap (triBBox data j)
                ⟨b.minX, (b.minX + b.maxX) / 2, (b.minZ + b.maxZ) / 2, b.maxZ⟩)) (d + 1) m
            have h3 := ih ⟨(b.minX + b.maxX) / 2, b.maxX, (b.minZ + b.maxZ) / 2, b.maxZ⟩
              (tris.filter fun j => decide (rectOverlap (triBBox data j)
                ⟨(b.minX + b.maxX) / 2, b.maxX, (b.minZ + b.maxZ) / 2, b.maxZ⟩)) (d + 1) m
            omega

/-- C3: `decodeTriangle` returns the three vertices obtained by
dequantizing the base vertex into the bounding box
(`bmin + (raw/65535) × (bmax − bmin)` componentwise), dequantizing the
two edge vectors (`(raw/32767) × vecRange`), forming
`v1 = v0 + edgeX`, `v2 = v0 + edgeY`, and applying the fixed axis
permutation `(x, y, z) ↦ (x, z, −y)` to each vertex. -/
theorem C3_decode_formula (idx : ℕ) (v0_u16 x_i16 y_i16 : List ℤ)
    (bmin bmax : Vec3) (vecRange : ℚ) :
    decodeTriangle idx v0_u16 x_i16 y_i16 bmin bmax vecRange =
      (⟨bmin.x + ((v0_u16.getD (idx * 3 + 0) 0 : ℚ)) / 65535 * (bmax.x - bmin.x),
        bmin.z + ((v0_u16.getD (idx * 3 + 2) 0 : ℚ)) / 65535 * (bmax.z - bmin.z),
        -(bmin.y + ((v0_u16.getD (idx * 3 + 1) 0 : ℚ)) / 65535 * (bmax.y - bmin.y))⟩,
       ⟨(bmin.x + ((v0_u16.getD (idx * 3 + 0) 0 : ℚ)) / 65535 * (bmax.x - bmin.x)) +
          ((x_i16.getD (idx * 3 + 0) 0 : ℚ)) / 32767 * vecRange,
        (bmin.z + ((v0_u16.getD (idx * 3 + 2) 0 : ℚ)) / 65535 * (bmax.z - bmin.z)) +
          ((x_i16.getD (idx * 3 + 2) 0 : ℚ)) / 32767 * vecRange,
        -((bmin.y + ((v0_u16.getD (idx * 3 + 1) 0 : ℚ)) / 65535 * (bmax.y - bmin.y)) +
          ((x_i16.getD (idx * 3 + 1) 0 : ℚ)) / 32767 * vecRange)⟩,
       ⟨(bmin.x + ((v0_u16.getD (idx * 3 + 0) 0 : ℚ)) / 65535 * (bmax.x - bmin.x)) +
          ((y_i16.getD (idx * 3 + 0) 0 : ℚ)) / 32767 * vecRange,
        (bmin.z + ((v0_u16.getD (idx * 3 + 2) 0 : ℚ)) / 65535 * (bmax.z - bmin.z)) +
          ((y_i16.getD (idx * 3 + 2) 0 : ℚ)) / 32767 * vecRange,
        -((bmin.y + ((v0_u16.getD (idx * 3 + 1) 0 : ℚ)) / 65535 * (bmax.y - bmin.y)) +
          ((y_i16.getD (idx * 3 + 1) 0 : ℚ)) / 32767 * vecRange)⟩) := by
  unfold decodeTriangle dequantBase dequantEdge applyRotation addVec
  rfl

/-- C9: `decodeTriangle` is deterministic and side-effect free: it is a
pure function of its inputs, so identical inputs (same index, arrays,
bounding box and range) produce identical vertex triples. The source
performs no writes to its arguments (it only reads the arrays and
mutates freshly cloned `Vector3`s), which is what makes this pure
embedding faithful. -/
theorem C9_decode_deterministic (idx₁ idx₂ : ℕ) (a₁ b₁ c₁ a₂ b₂ c₂ : List ℤ)
    (bmin₁ bmax₁ bmin₂ bmax₂ : Vec3) (r₁ r₂ : ℚ)
    (h : idx₁ = idx₂ ∧ a₁ = a₂ ∧ b₁ = b₂ ∧ c₁ = c₂ ∧
         bmin₁ = bmin₂ ∧ bmax₁ = bmax₂ ∧ r₁ = r₂) :
    decodeTriangle idx₁ a₁ b₁ c₁ bmin₁ bmax₁ r₁ =
      decodeTriangle idx₂ a₂ b₂ c₂ bmin₂ bmax₂ r₂ := by
  obtain ⟨rfl, rfl, rfl, rfl, rfl, rfl, rfl⟩ := h
  rfl

theorem C9_witness :
    decodeTriangle 0 [1, 2, 3] [4, 5, 6] [7, 8, 9] ⟨0, 0, 0⟩ ⟨1, 1, 1⟩ 2 =
      decodeTriangle 0 [1, 2, 3] [4, 5, 6] [7, 8, 9] ⟨0, 0, 0⟩ ⟨1, 1, 1⟩ 2 :=
  C9_decode_deterministic 0 0 [1, 2, 3] [4, 5, 6] [7, 8, 9] [1, 2, 3] [4, 5, 6]
    [7, 8, 9] ⟨0, 0, 0⟩ ⟨1, 1, 1⟩ ⟨0, 0, 0⟩ ⟨1, 1, 1⟩ 2 2
    ⟨rfl, rfl, rfl, rfl, rfl, rfl, rfl⟩

section
attribute [local semireducible] Rat.mul Rat.add Rat.sub Rat.inv

/-- C8 counterexample: with `bmin = bmax` (a legal parameter set — a
terrain flat in one axis) the decoded coordinate is constant, so raising
the raw component from 1 to 2 (neither an extreme) does not strictly
increase the decoded coordinate, contradicting the claim as stated for
"every fixed bmin and bmax". -/
theorem C8_counterexample :
    (1 : ℤ) < 2 ∧ (1 : ℤ) ≠ 0 ∧ (2 : ℤ) ≠ 65535 ∧
    ¬ ((decodeTriangle 0 [1, 0, 0] [0, 0, 0] [0, 0, 0] ⟨0, 0, 0⟩ ⟨0, 0, 0⟩ 0).1.x <
        (decodeTriangle 0 [2, 0, 0] [0, 0, 0] [0, 0, 0] ⟨0, 0, 0⟩ ⟨0, 0, 0⟩ 0).1.x) ∧
    (decodeTriangle 0 [1, 0, 0] [0, 0, 0] [0, 0, 0] ⟨0, 0, 0⟩ ⟨0, 0, 0⟩ 0).1.x =
      (decodeTriangle 0 [2, 0, 0] [0, 0, 0] [0, 0, 0] ⟨0, 0, 0⟩ ⟨0, 0, 0⟩ 0).1.x := by
  refine ⟨by norm_num, by norm_num, by norm_num, ?_, ?_⟩ <;> decide

end

/-- C8 amended: for every fixed `bmin` and `bmax` with `bmin < bmax` in
the relevant component, increasing a raw base-vertex component strictly
increases the decoded coordinate `bmin + (raw/65535) × (bmax − bmin)`;
when `bmin = bmax` the decoded coordinate is constant. -/
theorem C8_amended (bminx bmaxx : ℚ) (r1 r2 : ℤ)
    (h : bminx < bmaxx) (hr : r1 < r2) :
    dequantBase bminx bmaxx r1 < dequantBase bminx bmaxx r2 := by
  unfold dequantBase
  have hc : (r1 : ℚ) < r2 := by exact_mod_cast hr
  have hD : 0 < bmaxx - bminx := by linarith
  have key : ((r2 : ℚ) - r1) * (bmaxx - bminx) > 0 := mul_pos (by linarith) hD
  nlinarith

theorem C8_amended_witness : dequantBase 0 1 0 < dequantBase 0 1 1 :=
  C8_amended 0 1 0 1 (by norm_num) (by norm_num)

/-- C7: a node is subdivided exactly when its depth is below `maxDepth`
and it holds at least 500 triangle indices; consequently the build on
the ten-triangle terrain (with `maxDepth = 6`) performs no subdivision:
the root stays a single leaf holding all ten indices. -/
theorem C7_stop_condition :
    (∀ (td : Option TerrainData) (n : OctreeNode) (d m : ℕ), n.children = none →
      ((subdivideOctree td n d m).children.isSome ↔
        d < m ∧ 500 ≤ n.triangles.length)) ∧
    (buildTerrainOctree (stateWith tenTriangleData)).octree.map OctreeNode.isLeaf
      = some true ∧
    (buildTerrainOctree (stateWith tenTriangleData)).octree.map OctreeNode.triangles
      = some (List.range 10) := by
  refine ⟨?_, ?_, ?_⟩
  · intro td n d m hc
    rw [subdivideOctree_eq]
    split_ifs with hg
    · rw [hc]
      simp only [Option.isSome_none, Bool.false_eq_true, false_iff]
      rintro ⟨h1, h2⟩
      rcases hg with hg | hg <;> omega
    · push_neg at hg
      cases td with
      | none =>
          simp only [OctreeNode.children, Option.isSome_some, true_iff]
          exact ⟨hg.1, hg.2⟩
      | some data =>
          simp only [OctreeNode.children, Option.isSome_some, true_iff]
          exact ⟨hg.1, hg.2⟩
  · decide
  · decide

theorem C7_witness :
    (subdivideOctree (some tenTriangleData) (OctreeNode.mk ⟨0, 0, 0, 0⟩ [] none)
        0 6).children.isSome ↔
      0 < 6 ∧ 500 ≤ (OctreeNode.mk ⟨0, 0, 0, 0⟩ [] none).triangles.length :=
  C7_stop_condition.1 (some tenTriangleData) (OctreeNode.mk ⟨0, 0, 0, 0⟩ [] none)
    0 6 rfl

/-- C10 (implicit): the recursive index build always terminates — the
embedding is a total function whose recursion consumes
`maxDepth − depth` — and the tree it produces never exceeds the
subdivision depth budget: `maxDepth − depth` levels below any childless
node, hence at most 6 levels for `buildTerrainOctree`. -/
theorem C10_build_terminates_depth_bounded :
    (∀ (td : Option TerrainData) (b : Rect) (tris : List ℕ) (d m : ℕ),
      treeHeight (subdivideOctree td (.mk b tris none) d m) ≤ m - d) ∧
    (∀ (st : TerrainState) (data : TerrainData), st.terrainData = some data →
      ∃ tree, (buildTerrainOctree st).octree = some tree ∧ treeHeight tree ≤ 6) := by
  constructor
  · intro td b tris d m
    exact treeHeight_subdivideAux td (m - d) b tris d m
  · intro st data h
    unfold buildTerrainOctree
    rw [h]
    refine ⟨_, rfl, ?_⟩
    exact le_trans (treeHeight_subdivideAux (some data) (6 - 0)
      (sampledRootBounds data) (List.range data.count) 0 6) (by norm_num)

theorem C10_witness :
    ∃ tree, (buildTerrainOctree (stateWith twoTriangleData)).octree = some tree ∧
      treeHeight tree ≤ 6 :=
  C10_build_terminates_depth_bounded.2 (stateWith twoTriangleData) twoTriangleData rfl

theorem except_bind_ok {α β : Type} (x : Except String α) (f : α → Except String β)
    (b : β) (h : x >>= f = .ok b) : ∃ a, x = .ok a ∧ f a = .ok b := by
  cases x with
  | ok a => exact ⟨a, rfl, h⟩
  | error e => simp [Bind.bind, Except.bind] at h

theorem mkUint16View_ok_bound (ab : List ℕ) (off n : ℕ) (v : List ℕ)
    (h : mkUint16View ab off n = .ok v) : off + 2 * n ≤ ab.length := by
  unfold mkUint16View at h
  split_ifs at h with hg
  push_neg at hg
  omega

theorem mkInt16View_ok_bound (ab : List ℕ) (off n : ℕ) (v : List ℤ)
    (h : mkInt16View ab off n = .ok v) : off + 2 * n ≤ ab.length := by
  unfold mkInt16View at h
  split_ifs at h with hg
  push_neg at hg
  omega

theorem mkUint8View_ok_bound (ab : List ℕ) (off n : ℕ) (v : List ℕ)
    (h : mkUint8View ab off n = .ok v) : off + n ≤ ab.length := by
  unfold mkUint8View at h
  split_ifs at h with hg
  omega

theorem mkFloat32View_ok_bound (ab : List ℕ) (off n : ℕ) (v : List ℕ)
    (h : mkFloat32View ab off n = .ok v) : off + 4 * n ≤ ab.length := by
  unfold mkFloat32View at h
  split_ifs at h with hg
  push_neg at hg
  omega

/-- C6: whenever `parseITRI` succeeds, the magic was `"ITRI"` (bytes
`73, 84, 82, 73`), the version field read 1, and every declared
sub-array (the three mandatory quantized arrays, and the optional color
and uv arrays when their flag bit is set and their offset nonzero) fits
inside the buffer. Contrapositively, a bad magic, a version other than
1, or an offset whose sub-array would run past the end of the buffer
makes the parse fail and return no decode parameters; the embedding's
reads are all bounds-guarded, so no success path reads out of bounds. -/
theorem C6_parse_rejects (ab : List ℕ) (d : ITRIData) (h : parseITRI ab = .ok d) :
    (ab.getD 0 0 = 73 ∧ ab.getD 1 0 = 84 ∧ ab.getD 2 0 = 82 ∧ ab.getD 3 0 = 73) ∧
    getUint32LE ab 4 = .ok 1 ∧
    (∀ c o, getUint32LE ab 8 = .ok c → getUint32LE ab 20 = .ok o →
      o + 6 * c ≤ ab.length) ∧
    (∀ c o, getUint32LE ab 8 = .ok c → getUint32LE ab 24 = .ok o →
      o + 6 * c ≤ ab.length) ∧
    (∀ c o, getUint32LE ab 8 = .ok c → getUint32LE ab 28 = .ok o →
      o + 6 * c ≤ ab.length) ∧
    (∀ f c o, getUint32LE ab 12 = .ok f → getUint32LE ab 8 = .ok c →
      getUint32LE ab 32 = .ok o → f.testBit 0 → o ≠ 0 →
      o + 4 * c ≤ ab.length) ∧
    (∀ f c o, getUint32LE ab 12 = .ok f → getUint32LE ab 8 = .ok c →
      getUint32LE ab 36 = .ok o → f.testBit 1 → o ≠ 0 →
      o + 24 * c ≤ ab.length) := by
  have pin : ∀ {α : Type} (e : Except String α) (a b : α),
      e = .ok a → e = .ok b → a = b := by
    intro α e a b h1 h2
    rw [h1] at h2
    exact Except.ok.inj h2
  unfold parseITRI at h
  obtain ⟨m0, hm0, h⟩ := except_bind_ok _ _ _ h
  obtain ⟨m1, hm1, h⟩ := except_bind_ok _ _ _ h
  obtain ⟨m2, hm2, h⟩ := except_bind_ok _ _ _ h
  obtain ⟨m3, hm3, h⟩ := except_bind_ok _ _ _ h
  dsimp only at h
  split_ifs at h with hmagic
  · obtain ⟨u1, hu1, h⟩ := except_bind_ok _ _ _ h
    obtain ⟨version, hversion, h⟩ := except_bind_ok _ _ _ h
    split_ifs at h with hver
    · simp [throw, throwThe, MonadExceptOf.throw, Bind.bind, Except.bind] at h
    · obtain ⟨u2, hu2, h⟩ := except_bind_ok _ _ _ h
      obtain ⟨count, hcount, h⟩ := except_bind_ok _ _ _ h
      obtain ⟨flags, hflags, h⟩ := except_bind_ok _ _ _ h
      obtain ⟨v0Off, hv0Off, h⟩ := except_bind_ok _ _ _ h
      obtain ⟨xOff, hxOff, h⟩ := except_bind_ok _ _ _ h
      obtain ⟨yOff, hyOff, h⟩ := except_bind_ok _ _ _ h
      obtain ⟨cOff, hcOff, h⟩ := except_bind_ok _ _ _ h
      obtain ⟨uvOff, huvOff, h⟩ := except_bind_ok _ _ _ h
      obtain ⟨bminx, hbminx, h⟩ := except_bind_ok _ _ _ h
      obtain ⟨bminy, hbminy, h⟩ := except_bind_ok _ _ _ h
      obtain ⟨bminz, hbminz, h⟩ := except_bind_ok _ _ _ h
      obtain ⟨bmaxx, hbmaxx, h⟩ := except_bind_ok _ _ _ h
      obtain ⟨bmaxy, hbmaxy, h⟩ := except_bind_ok _ _ _ h
      obtain ⟨bmaxz, hbmaxz, h⟩ := except_bind_ok _ _ _ h
      obtain ⟨vecRange, hvecRange, h⟩ := except_bind_ok _ _ _ h
      obtain ⟨v0arr, hv0arr, h⟩ := except_bind_ok _ _ _ h
      obtain ⟨xarr, hxarr, h⟩ := except_bind_ok _ _ _ h
      obtain ⟨yarr, hyarr, h⟩ := except_bind_ok _ _ _ h
      have hget : ∀ (o : ℕ) (b : ℕ), getUint8 ab o = .ok b → ab.getD o 0 = b := by
        intro o b hb
        unfold getUint8 at hb
        cases hob : ab[o]? with
        | none => rw [hob] at hb; simp at hb
        | some w =>
            rw [hob] at hb
            rw [List.getD_eq_getElem?_getD, hob]
            exact Except.ok.inj hb
      push_neg at hmagic
      refine ⟨⟨by rw [hget 0 m0 hm0]; exact hmagic.1,
        by rw [hget 1 m1 hm1]; exact hmagic.2.1,
        by rw [hget 2 m2 hm2]; exact hmagic.2.2.1,
        by rw [hget 3 m3 hm3]; exact hmagic.2.2.2⟩,
        by rw [hversion, not_not.mp hver], ?_, ?_, ?_, ?_, ?_⟩
      · intro c o hc ho
        rw [← pin _ _ _ hcount hc, ← pin _ _ _ hv0Off ho]
        have := mkUint16View_ok_bound ab v0Off (count * 3) v0arr hv0arr
        omega
      · intro c o hc ho
        rw [← pin _ _ _ hcount hc, ← pin _ _ _ hxOff ho]
        have := mkInt16View_ok_bound ab xOff (count * 3) xarr hxarr
        omega
      · intro c o hc ho
        rw [← pin _ _ _ hcount hc, ← pin _ _ _ hyOff ho]
        have := mkInt16View_ok_bound ab yOff (count * 3) yarr hyarr
        omega
      · intro f c o hf hc ho hbit hne
        rw [← pin _ _ _ hcount hc, ← pin _ _ _ hcOff ho]
        rw [← pin _ _ _ hflags hf] at hbit
        rw [← pin _ _ _ hcOff ho] at hne
        by_cases hcolor : flags.testBit 0 = true ∧ cOff ≠ 0
        · rw [if_pos hcolor] at h
          obtain ⟨carr, hcarr, h⟩ := except_bind_ok _ _ _ h
          have := mkUint8View_ok_bound ab cOff (count * 4) carr hcarr
          omega
        · exact absurd ⟨hbit, hne⟩ hcolor
      · intro f c o hf hc ho hbit hne
        rw [← pin _ _ _ hcount hc, ← pin _ _ _ huvOff ho]
        rw [← pin _ _ _ hflags hf] at hbit
        rw [← pin _ _ _ huvOff ho] at hne
        by_cases hcolor : flags.testBit 0 = true ∧ cOff ≠ 0
        · rw [if_pos hcolor] at h
          obtain ⟨carr, hcarr, h⟩ := except_bind_ok _ _ _ h
          obtain ⟨colors, hcolors, h⟩ := except_bind_ok _ _ _ h
          by_cases huvc : flags.testBit 1 = true ∧ uvOff ≠ 0
          · rw [if_pos huvc] at h
            by_cases halign : uvOff % 4 = 0
            · rw [if_pos halign] at h
              obtain ⟨uarr, huarr, h⟩ := except_bind_ok _ _ _ h
              have := mkFloat32View_ok_bound ab uvOff (count * 6) uarr huarr
              omega
            · rw [if_neg halign] at h
              obtain ⟨barr, hbarr, h⟩ := except_bind_ok _ _ _ h
              have := mkUint8View_ok_bound ab uvOff (count * 6 * 4) barr hbarr
              omega
          · exact absurd ⟨hbit, hne⟩ huvc
        · rw [if_neg hcolor] at h
          obtain ⟨colors, hcolors, h⟩ := except_bind_ok _ _ _ h
          by_cases huvc : flags.testBit 1 = true ∧ uvOff ≠ 0
          · rw [if_pos huvc] at h
            by_cases halign : uvOff % 4 = 0
            · rw [if_pos halign] at h
              obtain ⟨uarr, huarr, h⟩ := except_bind_ok _ _ _ h
              have := mkFloat32View_ok_bound ab uvOff (count * 6) uarr huarr
              omega
            · rw [if_neg halign] at h
              obtain ⟨barr, hbarr, h⟩ := except_bind_ok _ _ _ h
              have := mkUint8View_ok_bound ab uvOff (count * 6 * 4) barr hbarr
              omega
          · exact absurd ⟨hbit, hne⟩ huvc
  · simp [throw, throwThe, MonadExceptOf.throw, Bind.bind, Except.bind] at h

theorem C6_witness : ∃ d, parseITRI okBuffer = .ok d ∧
    (okBuffer.getD 0 0 = 73 ∧ okBuffer.getD 1 0 = 84 ∧
     okBuffer.getD 2 0 = 82 ∧ okBuffer.getD 3 0 = 73) := by
  cases hp : parseITRI okBuffer with
  | error e =>
      have : (parseITRI okBuffer).toOption.isSome = true := by decide
      rw [hp] at this
      simp [Except.toOption] at this
  | ok d => exact ⟨d, rfl, (C6_parse_rejects okBuffer d hp).1⟩

/-- `buildTerrainOctree` on a loaded terrain publishes the subdivided
root (seeded with all indices) and sets the ready flag. -/
theorem buildTerrainOctree_fields (st : TerrainState) (data : TerrainData)
    (h : st.terrainData = some data) :
    buildTerrainOctree st =
      ⟨some data,
       some (subdivideOctree (some data)
         (.mk (sampledRootBounds data) (List.range data.count) none) 0 6),
       true⟩ := by
  obtain ⟨td, oc, rdy⟩ := st
  simp only [TerrainState.terrainData] at h
  subst h
  rfl

theorem bestHit_eq_foldClosest (data : TerrainData) (x z : ℚ) (cands : List ℕ) :
    bestHit data x z cands = foldClosest (hitT data x z) none cands := rfl

/-- C2: the height query returns the fallback unchanged whenever no
terrain is loaded, the index is missing or not ready, the candidate set
at the query point is empty, or no candidate triangle is hit; in
particular (last conjunct) a query outside the XZ bounding box of every
triangle of a freshly built terrain returns exactly the fallback. -/
theorem C2_fallback (st : TerrainState) (x z f : ℚ) :
    ((st.terrainData = none ∨ st.octree = none ∨ st.octreeReady = false) →
      getTerrainHeightFromOctree st x z f = f) ∧
    (queryOctree st x z = [] → getTerrainHeightFromOctree st x z f = f) ∧
    (∀ data, st.terrainData = some data →
      (∀ i ∈ queryOctree st x z, hitT data x z i = none) →
      getTerrainHeightFromOctree st x z f = f) ∧
    (∀ (st0 : TerrainState) (data : TerrainData), st0.terrainData = some data →
      (∀ i, i < data.count → ¬ pointInRect x z (triBBox data i)) →
      getTerrainHeightFromOctree (buildTerrainOctree st0) x z f = f) := by
  obtain ⟨td, oc, rdy⟩ := st
  refine ⟨?_, ?_, ?_, ?_⟩
  · rintro (h | h | h) <;>
      simp only [TerrainState.terrainData, TerrainState.octree,
        TerrainState.octreeReady] at h <;>
      subst h
    · rfl
    · cases td <;> rfl
    · cases td <;> cases oc <;> rfl
  · intro hq
    cases td with
    | none => rfl
    | some data =>
        cases oc with
        | none => rfl
        | some root =>
            cases rdy with
            | false => rfl
            | true =>
                unfold getTerrainHeightFromOctree
                dsimp only
                rw [if_pos hq]
  · intro data hd hnone
    simp only [TerrainState.terrainData] at hd
    subst hd
    cases oc with
    | none => rfl
    | some root =>
        cases rdy with
        | false => rfl
        | true =>
            unfold getTerrainHeightFromOctree
            dsimp only
            by_cases hq : queryOctree ⟨some data, some root, true⟩ x z = []
            · rw [if_pos hq]
            · rw [if_neg hq, bestHit_eq_foldClosest,
                (foldClosest_none_iff _ _ _).mpr ⟨rfl, hnone⟩]
  · intro st0 data hd hout
    rw [buildTerrainOctree_fields st0 data hd]
    set T := subdivideOctree (some data)
      (.mk (sampledRootBounds data) (List.range data.count) none) 0 6 with hT
    have hnone : ∀ i ∈ queryOctree ⟨some data, some T, true⟩ x z,
        hitT data x z i = none := by
      intro i hi
      have hisound : i ∈ List.range data.count := by
        have := query_subdivide_sound data (6 - 0) (sampledRootBounds data)
          (List.range data.count) 0 6 x z i
        exact this hi
      have hic : i < data.count := List.mem_range.mp hisound
      cases hh : hitT data x z i with
      | none => rfl
      | some t =>
          exact absurd (hitT_mem_bbox data x z i t hh) (hout i hic)
    unfold getTerrainHeightFromOctree
    dsimp only
    by_cases hq : queryOctree ⟨some data, some T, true⟩ x z = []
    · rw [if_pos hq]
    · rw [if_neg hq, bestHit_eq_foldClosest,
        (foldClosest_none_iff _ _ _).mpr ⟨rfl, hnone⟩]

theorem C2_witness :
    getTerrainHeightFromOctree ⟨none, none, false⟩ 0 0 7 = 7 :=
  (C2_fallback ⟨none, none, false⟩ 0 0 7).1 (Or.inl rfl)

/-- C1: the indexed height query casts the ray from `(x, 450, z)`
straight down; a candidate triangle is hit exactly when the
Möller–Trumbore denominator is at least `1e-7` away from zero, the
parameters satisfy `u ≥ 0`, `v ≥ 0`, `u + v ≤ 1`, and the ray parameter
exceeds `1e-7`; and when some candidate is hit, the query returns
`450 − t_min` for the minimal hit parameter `t_min` over all candidates. -/
theorem C1_height_from_min_hit (st : TerrainState) (data : TerrainData)
    (root : OctreeNode) (x z f tmin : ℚ)
    (hd : st.terrainData = some data) (ho : st.octree = some root)
    (hr : st.octreeReady = true)
    (hmin : ∃ i ∈ queryOctree st x z, hitT data x z i = some tmin)
    (hlb : ∀ j ∈ queryOctree st x z, ∀ u, hitT data x z j = some u → tmin ≤ u) :
    (∀ (v0 v1 v2 : Vec3) (t : ℚ),
      rayTriangleIntersect ⟨x, 450, z⟩ ⟨0, -1, 0⟩ v0 v1 v2 = some t ↔
        (mtA ⟨0, -1, 0⟩ v0 v1 v2 ≤ -EPSILON ∨ EPSILON ≤ mtA ⟨0, -1, 0⟩ v0 v1 v2) ∧
        0 ≤ mtU ⟨x, 450, z⟩ ⟨0, -1, 0⟩ v0 v1 v2 ∧
        0 ≤ mtV ⟨x, 450, z⟩ ⟨0, -1, 0⟩ v0 v1 v2 ∧
        mtU ⟨x, 450, z⟩ ⟨0, -1, 0⟩ v0 v1 v2 +
          mtV ⟨x, 450, z⟩ ⟨0, -1, 0⟩ v0 v1 v2 ≤ 1 ∧
        EPSILON < t ∧ t = mtT ⟨x, 450, z⟩ ⟨0, -1, 0⟩ v0 v1 v2) ∧
    getTerrainHeightFromOctree st x z f = 450 - tmin := by
  refine ⟨fun v0 v1 v2 t => rayTriangleIntersect_eq_some_iff _ _ _ _ _ _, ?_⟩
  obtain ⟨td, oc, rdy⟩ := st
  simp only [TerrainState.terrainData, TerrainState.octree,
    TerrainState.octreeReady] at hd ho hr
  subst hd
  subst ho
  subst hr
  obtain ⟨i, hiC, hit⟩ := hmin
  unfold getTerrainHeightFromOctree
  dsimp only
  rw [if_neg (by
    intro hq
    rw [hq] at hiC
    simp at hiC)]
  rw [bestHit_eq_foldClosest]
  cases hb : foldClosest (hitT data x z) none (queryOctree ⟨some data, some root, true⟩ x z) with
  | none =>
      have := (foldClosest_none_iff _ _ _).mp hb
      rw [this.2 i hiC] at hit
      exact absurd hit (by simp)
  | some t' =>
      have hmem := foldClosest_mem _ _ _ _ hb
      rcases hmem with hc | ⟨j, hjC, hjt⟩
      · exact absurd hc (by simp)
      · have h1 : tmin ≤ t' := hlb j hjC t' hjt
        have h2 : t' ≤ tmin := (foldClosest_le _ _ _ _ hb).2 i hiC tmin hit
        rw [le_antisymm h2 h1]

section
attribute [local semireducible] Rat.mul Rat.add Rat.sub Rat.inv

theorem C1_witness :
    (∃ i ∈ queryOctree (buildTerrainOctree (stateWith twoTriangleData))
        (1/2) (-1/2), hitT twoTriangleData (1/2) (-1/2) i = some 450) ∧
    getTerrainHeightFromOctree (buildTerrainOctree (stateWith twoTriangleData))
      (1/2) (-1/2) 99 = 450 - 450 := by
  have hC : queryOctree (buildTerrainOctree (stateWith twoTriangleData))
      (1/2) (-1/2) = [0, 1] := by decide
  have h0 : hitT twoTriangleData (1/2) (-1/2) 0 = some 450 := by decide
  have h1 : hitT twoTriangleData (1/2) (-1/2) 1 = none := by decide
  have hmin : ∃ i ∈ queryOctree (buildTerrainOctree (stateWith twoTriangleData))
      (1/2) (-1/2), hitT twoTriangleData (1/2) (-1/2) i = some 450 := by
    rw [hC]
    exact ⟨0, by simp, h0⟩
  refine ⟨hmin, ?_⟩
  refine (C1_height_from_min_hit (buildTerrainOctree (stateWith twoTriangleData))
    twoTriangleData
    (subdivideOctree (some twoTriangleData)
      (.mk (sampledRootBounds twoTriangleData) (List.range 2) none) 0 6)
    (1/2) (-1/2) 99 450 rfl rfl rfl hmin ?_).2
  intro j hj u hu
  rw [hC] at hj
  rcases List.mem_cons.mp hj with rfl | hj
  · rw [h0] at hu
    exact le_of_eq (Option.some.inj hu)
  · rcases List.mem_cons.mp hj with rfl | hj
    · rw [h1] at hu
      exact absurd hu (by simp)
    · simp at hj

end

/-- C4: after the index build, every triangle index below `count`
appears in every leaf whose rectangle its decoded XZ bounding box
overlaps (edge-inclusive): no triangle is silently dropped from a leaf
it overlaps, duplication across leaves being expected. -/
theorem C4_index_completeness (st : TerrainState) (data : TerrainData)
    (tree : OctreeNode) (i : ℕ) (ℓ : OctreeNode)
    (hd : st.terrainData = some data)
    (ht : (buildTerrainOctree st).octree = some tree)
    (hi : i < data.count)
    (hℓ : ℓ ∈ leavesOf tree)
    (hov : rectOverlap (triBBox data i) ℓ.bounds) :
    i ∈ ℓ.triangles := by
  rw [buildTerrainOctree_fields st data hd] at ht
  simp only [TerrainState.octree, Option.some.injEq] at ht
  subst ht
  have hinv := leaves_subdivide_invariant data (6 - 0) (sampledRootBounds data)
    (List.range data.count) 0 6 (sampledRootBounds_wf data) ℓ hℓ
  exact hinv.2.2 i (List.mem_range.mpr hi) hov

section
attribute [local semireducible] Rat.mul Rat.add Rat.sub Rat.inv

theorem C4_witness :
    0 ∈ (OctreeNode.mk (sampledRootBounds twoTriangleData) (List.range 2) none).triangles := by
  refine C4_index_completeness (stateWith twoTriangleData) twoTriangleData
    (subdivideOctree (some twoTriangleData)
      (.mk (sampledRootBounds twoTriangleData) (List.range 2) none) 0 6)
    0 (.mk (sampledRootBounds twoTriangleData) (List.range 2) none)
    rfl rfl (by decide) ?_ (by decide)
  exact List.Mem.head _

end

theorem foldReject_eq (data : TerrainData) (x z r : ℚ) (L : List ℕ) (acc : Option ℚ) :
    L.foldl (fun closest i =>
        if searchReject data x z r i then closest
        else closestStep closest (hitT data x z i)) acc =
      foldClosest (fun i =>
        if searchReject data x z r i then none else hitT data x z i) acc L := by
  induction L generalizing acc with
  | nil => rfl
  | cons a l ih =>
      simp only [List.foldl_cons, foldClosest_cons]
      by_cases hr : searchReject data x z r a = true
      · rw [if_pos hr, if_pos hr]
        exact ih _
      · rw [if_neg hr, if_neg hr]
        exact ih _

section
attribute [local semireducible] Rat.mul Rat.add Rat.sub Rat.inv

/-- C5 counterexample: with two triangles, only triangle 0 is sampled
for the root bounds, so a query over triangle 1 (outside the sampled
root rectangle) makes the indexed query return the fallback 99 while
the exhaustive scan finds the terrain at height 0 — the indexed path
returns the fallback although the exhaustive scan does not return null,
and the two results differ by far more than the 1e-4 tolerance. -/
theorem C5_counterexample :
    getTerrainHeightFromOctree (buildTerrainOctree (stateWith twoTriangleData))
      (2001/2) (-1/2) 99 = 99 ∧
    findTerrainHeight (buildTerrainOctree (stateWith twoTriangleData))
      (2001/2) (-1/2) 50 = some 0 ∧
    (1 : ℚ) / 10000 < 99 - 0 := by
  refine ⟨by decide, by decide, by norm_num⟩

end

/-- C5 amended: for query points inside the sampled root rectangle of
the built index, the indexed height query agrees exactly with the
exhaustive ray scan: same height when a triangle is hit, and the
fallback exactly when the exhaustive scan returns null. (Outside the
sampled root rectangle the counterexample applies: the every-100th
root-bounds sampling can exclude real triangles.) -/
theorem C5_amended (st : TerrainState) (data : TerrainData) (x z f : ℚ)
    (hd : st.terrainData = some data)
    (hin : pointInRect x z (sampledRootBounds data)) :
    getTerrainHeightFromOctree (buildTerrainOctree st) x z f =
      match findTerrainHeight (buildTerrainOctree st) x z 50 with
      | some hgt => hgt
      | none => f := by
  rw [buildTerrainOctree_fields st data hd]
  have hiff : ∀ t,
      (∃ i ∈ queryOctree ⟨some data, some (subdivideOctree (some data)
          (.mk (sampledRootBounds data) (List.range data.count) none) 0 6), true⟩ x z,
        hitT data x z i = some t) ↔
      (∃ i ∈ List.range data.count,
        (if searchReject data x z 50 i then none else hitT data x z i) = some t) := by
    intro t
    constructor
    · rintro ⟨i, hiC, hFi⟩
      have hiR : i ∈ List.range data.count :=
        query_subdivide_sound data (6 - 0) (sampledRootBounds data)
          (List.range data.count) 0 6 x z i hiC
      refine ⟨i, hiR, ?_⟩
      have hbb := hitT_mem_bbox data x z i t hFi
      have hnr : ¬ (searchReject data x z 50 i = true) := by
        simp only [searchReject, decide_eq_true_eq]
        push_neg
        obtain ⟨p1, p2, p3, p4⟩ := hbb
        exact ⟨by linarith, by linarith, by linarith, by linarith⟩
      rw [if_neg hnr]
      exact hFi
    · rintro ⟨i, hiR, hGi⟩
      by_cases hr : searchReject data x z 50 i = true
      · rw [if_pos hr] at hGi
        exact absurd hGi (by simp)
      · rw [if_neg hr] at hGi
        have hbb := hitT_mem_bbox data x z i t hGi
        exact ⟨i, query_subdivide_complete data (6 - 0) (sampledRootBounds data)
          (List.range data.count) 0 6 x z i hiR hin hbb, hGi⟩
  have hfold : bestHit data x z (queryOctree ⟨some data,
      some (subdivideOctree (some data)
        (.mk (sampledRootBounds data) (List.range data.count) none) 0 6), true⟩ x z) =
      foldClosest (fun i => if searchReject data x z 50 i then none
        else hitT data x z i) none (List.range data.count) := by
    rw [bestHit_eq_foldClosest]
    exact foldClosest_congr _ _ _ _ hiff
  cases hR : foldClosest (fun i => if searchReject data x z 50 i then none
      else hitT data x z i) none (List.range data.count) with
  | none =>
      have hfind : findTerrainHeight ⟨some data, some (subdivideOctree (some data)
          (.mk (sampledRootBounds data) (List.range data.count) none) 0 6), true⟩
          x z 50 = none := by
        unfold findTerrainHeight
        dsimp only
        rw [foldReject_eq, hR]
      rw [hfind]
      unfold getTerrainHeightFromOctree
      dsimp only
      by_cases hq : queryOctree ⟨some data, some (subdivideOctree (some data)
          (.mk (sampledRootBounds data) (List.range data.count) none) 0 6), true⟩ x z = []
      · rw [if_pos hq]
      · rw [if_neg hq, hfold, hR]
  | some t =>
      have hfind : findTerrainHeight ⟨some data, some (subdivideOctree (some data)
          (.mk (sampledRootBounds data) (List.range data.count) none) 0 6), true⟩
          x z 50 = some (450 - t) := by
        unfold findTerrainHeight
        dsimp only
        rw [foldReject_eq, hR]
      rw [hfind]
      unfold getTerrainHeightFromOctree
      dsimp only
      have hq : queryOctree ⟨some data, some (subdivideOctree (some data)
          (.mk (sampledRootBounds data) (List.range data.count) none) 0 6), true⟩ x z ≠ [] := by
        intro hq
        have hb : bestHit data x z (queryOctree ⟨some data, some (subdivideOctree (some data)
            (.mk (sampledRootBounds data) (List.range data.count) none) 0 6), true⟩ x z)
            = some t := by rw [hfold, hR]
        rw [hq] at hb
        exact absurd hb (by simp [bestHit])
      rw [if_neg hq, hfold, hR]

section
attribute [local semireducible] Rat.mul Rat.add Rat.sub Rat.inv

theorem C5_amended_witness :
    getTerrainHeightFromOctree (buildTerrainOctree (stateWith twoTriangleData))
      (1/2) (-1/2) 99 =
      match findTerrainHeight (buildTerrainOctree (stateWith twoTriangleData))
        (1/2) (-1/2) 50 with
      | some hgt => hgt
      | none => 99 :=
  C5_amended (stateWith twoTriangleData) twoTriangleData (1/2) (-1/2) 99 rfl
    (by decide)

end

end Terrain
